import Mathlib

/-!
# netes-agent: pod construction from a deployment unit, and its reconciliation

A shallow embedding of `sync/podfromdu.go` and `sync/reconcile_pod.go`
(package `sync` of netes-agent) and theorems about it.

Conventions of the embedding.

* A Go `string` is a byte sequence: `GoString` is the list of its bytes, `len`
  is `List.length`, `s[:n]` keeps the first `n` bytes.
* A Go `map` is the list of its entries in the order an iteration visits them;
  a lookup returns the first entry with the key.
* A Go slice is a list; `append` adds at the end.
* A function that can panic (index out of range, slice bounds out of range)
  returns `Option`, `none` standing for the panic.
* Code outside the two source files that the functions call is taken as a
  parameter: `Hash` (package `utils`), `Parse` and the label names (package
  `labels`), `resource.ParseQuantity`, the Unicode case tables behind
  `strings.ToLower`, and the cluster client.
* The watch client is the sequence of the answers it gives to the successive
  `GetPod` calls of `reconcilePod`. The wait loop of `reconcilePod` has no
  bound: a run over a finite sequence of answers that ends before the loop
  returns has no returned value. Logging and `time.Sleep` are left out, apart
  from the errors handed to `log.Error`.
-/

set_option linter.dupNamespace false

namespace NetesAgent

/-! ## Go strings -/

/-- A Go string: its bytes. -/
abbrev GoString := List Nat

/-- The bytes (UTF-8) of a string literal. -/
def utf8 (s : String) : GoString :=
  (s.toList.flatMap String.utf8EncodeChar).map UInt8.toNat

/-- Byte below `utf8.RuneSelf` (0x80): a one-byte character. -/
def isASCII (b : Nat) : Bool := b < 128

/-- Byte in `A`..`Z`. -/
def isUpperASCII (b : Nat) : Bool := 65 ≤ b && b ≤ 90

/-- Lower-case form of one ASCII byte: `A`..`Z` move by `a - A`. -/
def asciiLower (b : Nat) : Nat := if isUpperASCII b then b + 32 else b

/-- Go `strings.ToLower`. On a string of ASCII bytes only the result is the
byte-wise lowering; any other string is mapped rune by rune through the
Unicode tables, `strings.Map(unicode.ToLower, s)`, which is the parameter
`unicodeLower`. -/
def stringsToLower (unicodeLower : GoString → GoString) (s : GoString) : GoString :=
  if s.all isASCII then s.map asciiLower else unicodeLower s

/-- Go `strings.HasPrefix`: `len(s) >= len(prefix) && s[:len(prefix)] == prefix`. -/
def stringsHasPrefix (s pre : GoString) : Bool :=
  decide (pre.length ≤ s.length) && (s.take pre.length == pre)

/-- Go `strings.HasSuffix`:
`len(s) >= len(suffix) && s[len(s)-len(suffix):] == suffix`. -/
def stringsHasSuffix (s suffix : GoString) : Bool :=
  decide (suffix.length ≤ s.length) && (s.drop (s.length - suffix.length) == suffix)

/-- Scan of `strings.Replace(s, old, new, -1)` for a non-empty `old`: `skip`
is the number of bytes of a match still to be passed over. -/
def stringsReplaceAux (old new : GoString) : Nat → GoString → GoString
  | _, [] => []
  | skip + 1, _ :: rest => stringsReplaceAux old new skip rest
  | 0, b :: rest =>
    if stringsHasPrefix (b :: rest) old then
      new ++ stringsReplaceAux old new (old.length - 1) rest
    else
      b :: stringsReplaceAux old new 0 rest

/-- Go `strings.Replace(s, old, new, -1)`, every non-overlapping occurrence of
`old` from the left replaced by `new`. The source calls it with a non-empty
`old` only; the empty `old` (which Go treats specially) is left unchanged
here. -/
def stringsReplaceAll (s old new : GoString) : GoString :=
  if old = [] then s else stringsReplaceAux old new 0 s

/-- Go `strings.Split(s, sep)` (and `strings.SplitN(s, sep, -1)`) for a
one-byte separator, the only kind the source uses: the fields between the
occurrences of `sep`, one more than there are occurrences. -/
def stringsSplit (s : GoString) (sep : Nat) : List GoString :=
  match s with
  | [] => [[]]
  | b :: rest =>
    if b = sep then [] :: stringsSplit rest sep
    else
      match stringsSplit rest sep with
      | [] => [[b]]
      | field :: fields => (b :: field) :: fields

/-- Go `filepath.IsAbs` on Unix: `strings.HasPrefix(path, "/")`. -/
def filepathIsAbs (path : GoString) : Bool := stringsHasPrefix path (utf8 "/")

/-- Go slice expression `s[:n]`: panics when `n > len(s)`. -/
def sliceTo (s : GoString) (n : Nat) : Option GoString :=
  if n ≤ s.length then some (s.take n) else none

/-! ## Decimal numbers -/

/-- Digits of `n`, most significant first, in front of `acc`. -/
def fmtNatAux : Nat → Nat → GoString → GoString
  | 0, _, acc => acc
  | fuel + 1, n, acc =>
    if n < 10 then (48 + n) :: acc
    else fmtNatAux fuel (n / 10) ((48 + n % 10) :: acc)

/-- Decimal rendering of a natural number. -/
def fmtNat (n : Nat) : GoString := fmtNatAux (n + 1) n []

/-- Decimal rendering of an integer, as `fmt.Sprint` and the verb `%d` give
it: a `-` in front of a negative number. -/
def fmtInt (i : Int) : GoString :=
  if i < 0 then 45 :: fmtNat i.natAbs else fmtNat i.natAbs

/-- Value of a decimal digit byte. -/
def digitVal (b : Nat) : Option Nat :=
  if 48 ≤ b ∧ b ≤ 57 then some (b - 48) else none

/-- Digit loop of `strconv.ParseUint` in base 10: `none` at the first byte
that is no digit. -/
def parseDigits : GoString → Nat → Option Nat
  | [], acc => some acc
  | b :: rest, acc =>
    match digitVal b with
    | none => none
    | some d => parseDigits rest (acc * 10 + d)

/-- Go `strconv.ParseUint(s, 10, _)` up to the range check: a syntax error
(`none`) for the empty string and for any byte that is no digit. -/
def parseUint (s : GoString) : Option Nat :=
  match s with
  | [] => none
  | _ :: _ => parseDigits s 0

/-- Go `strconv.ParseInt(s, 10, 32)`: an optional sign, then digits; an error
(`none`) on a syntax error and when the value is outside the signed 32-bit
range (`un >= 1<<31` for a positive, `un > 1<<31` for a negative number). -/
def strconvParseInt32 (s : GoString) : Option Int :=
  match s with
  | [] => none
  | b :: rest =>
    let neg := decide (b = 45)
    let body := if b = 43 ∨ b = 45 then rest else b :: rest
    match parseUint body with
    | none => none
    | some un =>
      if !neg && decide (2 ^ 31 ≤ un) then none
      else if neg && decide (2 ^ 31 < un) then none
      else some (if neg then -(un : Int) else (un : Int))

/-! ## Input: the deployment unit -/

/-- A value of type `interface{}` held in a label map: a Go string, or a
value of another dynamic type, kept with its `fmt.Sprint` rendering. -/
inductive Iface where
  | str (s : GoString)
  | other (sprint : GoString)
deriving DecidableEq, Repr

/-- Go `fmt.Sprint(v)` of a label value. -/
def fmtSprint : Iface → GoString
  | Iface.str s => s
  | Iface.other r => r

/-- The fields of `client.Container` that the modelled functions read. -/
structure Container where
  Name : GoString := []
  Labels : List (GoString × Iface) := []
  ExtraHosts : List GoString := []
  Memory : Int := 0
  MemoryReservation : Int := 0
  MilliCpuReservation : Int := 0
  Ports : List GoString := []
  DataVolumes : List GoString := []
  Tmpfs : List GoString := []
deriving DecidableEq, Repr

/-- The fields of `client.DeploymentSyncRequest` that the modelled functions
read. -/
structure DeploymentSyncRequest where
  DeploymentUnitUuid : GoString := []
  Revision : GoString := []
  Namespace : GoString := []
  NodeName : GoString := []
  Containers : List Container := []
deriving DecidableEq, Repr

/-- Modelled from the spec: `primary` is declared outside `podfromdu.go`; the
spec's glossary makes the primary container the first container of the
deployment unit. `none` when there is no container. -/
def primary (deploymentUnit : DeploymentSyncRequest) : Option Container :=
  deploymentUnit.Containers.head?

/-! ## Pod name -/

/-- Source function `transformContainerName`. -/
def transformContainerName (unicodeLower : GoString → GoString) (name : GoString) : GoString :=
  stringsToLower unicodeLower name

/-- Source function `getPodName`: `fmt.Sprintf("%s-%s", ..)` of the
transformed primary container name and `DeploymentUnitUuid[:8]`. -/
def getPodName (unicodeLower : GoString → GoString)
    (deploymentUnit : DeploymentSyncRequest) : Option GoString :=
  match primary deploymentUnit with
  | none => none
  | some p =>
    match sliceTo deploymentUnit.DeploymentUnitUuid 8 with
    | none => none
    | some id8 => some (transformContainerName unicodeLower p.Name ++ utf8 "-" ++ id8)

/-- A pod name is lowercase: it holds no upper-case letter and
`strings.ToLower` leaves it unchanged. -/
def isLowercase (unicodeLower : GoString → GoString) (s : GoString) : Prop :=
  s.any isUpperASCII = false ∧ stringsToLower unicodeLower s = s

/-! ## Ports -/

/-- Kubernetes `v1.Protocol`. -/
inductive Protocol where
  | TCP
  | UDP
deriving DecidableEq, Repr

/-- Kubernetes `v1.ContainerPort`, the fields the source sets. -/
structure ContainerPort where
  ContainerPort : Int
  HostPort : Int
  Protocol : Protocol
deriving DecidableEq, Repr

/-- The protocol switch at the head of the loop body of `getPorts`: the
protocol and the port string with the suffix text deleted by
`strings.Replace(port, suffix, "", -1)`, or `none` for `continue`. -/
def getPortsProtocol (port : GoString) : Option (Protocol × GoString) :=
  let protocol := Protocol.TCP
  if stringsHasSuffix port (utf8 "/tcp") then
    some (protocol, stringsReplaceAll port (utf8 "/tcp") [])
  else if stringsHasSuffix port (utf8 "/TCP") then
    some (protocol, stringsReplaceAll port (utf8 "/TCP") [])
  else if stringsHasSuffix port (utf8 "/udp") then
    some (Protocol.UDP, stringsReplaceAll port (utf8 "/udp") [])
  else if stringsHasSuffix port (utf8 "/UDP") then
    some (Protocol.UDP, stringsReplaceAll port (utf8 "/UDP") [])
  else none

/-- The loop body of `getPorts` for one port string: the entry it appends, or
`none` where the source says `continue`. The pattern `p0 :: p1 :: _` is the
test `len(parts) >= 2` with `parts[0]` and `parts[1]`. -/
def getPortsEntry (port : GoString) : Option ContainerPort :=
  match getPortsProtocol port with
  | none => none
  | some (protocol, port) =>
    match stringsSplit port 58 with
    | p0 :: p1 :: _ =>
      match strconvParseInt32 p0 with
      | none => none
      | some hostPort =>
        match strconvParseInt32 p1 with
        | none => none
        | some containerPort =>
          some { ContainerPort := containerPort, HostPort := hostPort, Protocol := protocol }
    | _ => none

/-- End of a loop body that either left with `continue` (`none`) or appends
one entry to the slice. -/
def appendEntry {β : Type} (slice : List β) : Option β → List β
  | none => slice
  | some entry => slice ++ [entry]

/-- Source function `getPorts`: the loop over `container.Ports`. -/
def getPorts (container : Container) : List ContainerPort :=
  container.Ports.foldl (fun ports port => appendEntry ports (getPortsEntry port)) []

/-! ## Volumes -/

/-- Kubernetes `v1.HostPathVolumeSource`. -/
structure HostPathVolumeSource where
  Path : GoString
deriving DecidableEq, Repr

/-- Kubernetes `v1.EmptyDirVolumeSource`. -/
structure EmptyDirVolumeSource where
  Medium : GoString
deriving DecidableEq, Repr

/-- Kubernetes `v1.StorageMediumMemory`. -/
def StorageMediumMemory : GoString := utf8 "Memory"

/-- Kubernetes `v1.VolumeSource`: the two pointer fields the source sets, a
nil pointer being `none`. -/
structure VolumeSource where
  HostPath : Option HostPathVolumeSource := none
  EmptyDir : Option EmptyDirVolumeSource := none
deriving DecidableEq, Repr

/-- Kubernetes `v1.Volume`. -/
structure Volume where
  Name : GoString
  VolumeSource : VolumeSource
deriving DecidableEq, Repr

/-- Kubernetes `v1.VolumeMount`, the fields the source sets. -/
structure VolumeMount where
  Name : GoString
  MountPath : GoString
deriving DecidableEq, Repr

/-- Body of the data-volume loop of `getVolumes` for one volume string. -/
def getVolumesStep (Hash : GoString → GoString) (volumes : List Volume)
    (volume : GoString) : List Volume :=
  match stringsSplit volume 58 with
  | hostPath :: _ :: _ =>
    if !filepathIsAbs hostPath then volumes
    else
      volumes ++ [{ Name := Hash hostPath,
                    VolumeSource := { HostPath := some { Path := hostPath } } }]
  | _ => volumes

/-- Body of the tmpfs loop of `getVolumes` for one tmpfs path. -/
def getVolumesTmpfsStep (Hash : GoString → GoString) (volumes : List Volume)
    (tmpfs : GoString) : List Volume :=
  volumes ++ [{ Name := Hash tmpfs,
                VolumeSource := { EmptyDir := some { Medium := StorageMediumMemory } } }]

/-- Source function `getVolumes`: the data volumes of every container, then
the tmpfs paths of every container. -/
def getVolumes (Hash : GoString → GoString)
    (deploymentUnit : DeploymentSyncRequest) : List Volume :=
  let volumes : List Volume :=
    deploymentUnit.Containers.foldl
      (fun volumes container => container.DataVolumes.foldl (getVolumesStep Hash) volumes) []
  deploymentUnit.Containers.foldl
    (fun volumes container => container.Tmpfs.foldl (getVolumesTmpfsStep Hash) volumes) volumes

/-- Body of the data-volume loop of `getVolumeMounts` for one volume string. -/
def getVolumeMountsStep (Hash : GoString → GoString) (volumeMounts : List VolumeMount)
    (volume : GoString) : List VolumeMount :=
  match stringsSplit volume 58 with
  | hostPath :: containerPath :: _ =>
    if !filepathIsAbs hostPath then volumeMounts
    else volumeMounts ++ [{ Name := Hash hostPath, MountPath := containerPath }]
  | _ => volumeMounts

/-- Source function `getVolumeMounts`. -/
def getVolumeMounts (Hash : GoString → GoString) (container : Container) : List VolumeMount :=
  let volumeMounts : List VolumeMount :=
    container.DataVolumes.foldl (getVolumeMountsStep Hash) []
  container.Tmpfs.foldl
    (fun volumeMounts tmpfs => volumeMounts ++ [{ Name := Hash tmpfs, MountPath := tmpfs }])
    volumeMounts

/-! ## Resources -/

/-- Kubernetes `v1.ResourceName`, the two names the source uses. -/
inductive ResourceName where
  | ResourceMemory
  | ResourceCPU
deriving DecidableEq, Repr

/-- Kubernetes `v1.ResourceList`, a map from resource name to quantity. -/
abbrev ResourceList (Q : Type) := List (ResourceName × Q)

/-- Map assignment `m[k] = v`: the entry of `k` is overwritten, or a new
entry is added. -/
def mapSet {K V : Type} [DecidableEq K] (m : List (K × V)) (k : K) (v : V) : List (K × V) :=
  match m with
  | [] => [(k, v)]
  | (k0, v0) :: rest => if k0 = k then (k, v) :: rest else (k0, v0) :: mapSet rest k v

/-- Map index `m[k]` with the comma-ok form: `none` when the key is absent. -/
def mapGet {K V : Type} [DecidableEq K] (m : List (K × V)) (k : K) : Option V :=
  match m with
  | [] => none
  | (k0, v0) :: rest => if k0 = k then some v0 else mapGet rest k

/-- Kubernetes `v1.ResourceRequirements`: a nil map is `none`. -/
structure ResourceRequirements (Q : Type) where
  Limits : Option (ResourceList Q) := none
  Requests : Option (ResourceList Q) := none

/-- Source function `getResources`. `ParseQuantity` is
`resource.ParseQuantity` of the Kubernetes library, `none` standing for its
error. -/
def getResources {Q : Type} (ParseQuantity : GoString → Option Q)
    (container : Container) : ResourceRequirements Q :=
  let limits : ResourceList Q := []
  let requests : ResourceList Q := []
  let limits :=
    if container.Memory ≠ 0 then
      match ParseQuantity (fmtInt container.Memory) with
      | some memoryLimitQuantity => mapSet limits ResourceName.ResourceMemory memoryLimitQuantity
      | none => limits
    else limits
  let requests :=
    if container.MemoryReservation ≠ 0 then
      match ParseQuantity (fmtInt container.MemoryReservation) with
      | some memoryRequestQuantity =>
        mapSet requests ResourceName.ResourceMemory memoryRequestQuantity
      | none => requests
    else requests
  let requests :=
    if container.MilliCpuReservation ≠ 0 then
      match ParseQuantity (fmtInt container.MilliCpuReservation ++ utf8 "m") with
      | some cpuRequestQuantity => mapSet requests ResourceName.ResourceCPU cpuRequestQuantity
      | none => requests
    else requests
  { Limits := if limits.length > 0 then some limits else none,
    Requests := if requests.length > 0 then some requests else none }

/-- The quantity a resource list holds for a name, `none` when the list is
nil or has no such key. -/
def resourceEntry {Q : Type} (l : Option (ResourceList Q)) (name : ResourceName) : Option Q :=
  match l with
  | none => none
  | some m => mapGet m name

/-! ## Affinity -/

/-- The label names of package `labels` that `podfromdu.go` refers to. Their
values are declared outside the source file, so the functions take them as a
parameter. -/
structure LabelNames where
  RevisionLabel : GoString
  DeploymentUuidLabel : GoString
  GlobalLabel : GoString
  HostAffinityLabel : GoString
  HostAntiAffinityLabel : GoString
  HostSoftAffinityLabel : GoString
  HostSoftAntiAffinityLabel : GoString
  ContainerAffinityLabel : GoString
  ContainerAntiAffinityLabel : GoString
  ContainerSoftAffinityLabel : GoString
  ContainerSoftAntiAffinityLabel : GoString
deriving DecidableEq, Repr

/-- The operators `In` and `NotIn` of `v1.NodeSelectorOperator` and
`metav1.LabelSelectorOperator`. -/
inductive SelectorOperator where
  | In
  | NotIn
deriving DecidableEq, Repr

/-- Kubernetes `v1.NodeSelectorRequirement`. -/
structure NodeSelectorRequirement where
  Key : GoString
  Operator : SelectorOperator
  Values : List GoString
deriving DecidableEq, Repr

/-- Kubernetes `metav1.LabelSelectorRequirement`. -/
structure LabelSelectorRequirement where
  Key : GoString
  Operator : SelectorOperator
  Values : List GoString
deriving DecidableEq, Repr

/-- Kubernetes `v1.NodeSelectorTerm`. -/
structure NodeSelectorTerm where
  MatchExpressions : List NodeSelectorRequirement
deriving DecidableEq, Repr

/-- Kubernetes `v1.NodeSelector`. -/
structure NodeSelector where
  NodeSelectorTerms : List NodeSelectorTerm
deriving DecidableEq, Repr

/-- Kubernetes `v1.PreferredSchedulingTerm`; `Weight` is an `int32` whose zero
value is 0. -/
structure PreferredSchedulingTerm where
  Weight : Int := 0
  Preference : NodeSelectorTerm
deriving DecidableEq, Repr

/-- Kubernetes `v1.NodeAffinity`: a nil pointer is `none`, a nil slice `[]`. -/
structure NodeAffinity where
  RequiredDuringSchedulingIgnoredDuringExecution : Option NodeSelector := none
  PreferredDuringSchedulingIgnoredDuringExecution : List PreferredSchedulingTerm := []
deriving DecidableEq, Repr

/-- Kubernetes `metav1.LabelSelector`, the field the source sets. -/
structure LabelSelector where
  MatchExpressions : List LabelSelectorRequirement
deriving DecidableEq, Repr

/-- Kubernetes `v1.PodAffinityTerm`. -/
structure PodAffinityTerm where
  LabelSelector : Option LabelSelector
  Namespaces : List GoString
  TopologyKey : GoString
deriving DecidableEq, Repr

/-- Kubernetes `v1.WeightedPodAffinityTerm`; `Weight` is an `int32` whose zero
value is 0. -/
structure WeightedPodAffinityTerm where
  Weight : Int := 0
  PodAffinityTerm : PodAffinityTerm
deriving DecidableEq, Repr

/-- Kubernetes `v1.PodAffinity`. -/
structure PodAffinity where
  RequiredDuringSchedulingIgnoredDuringExecution : List PodAffinityTerm := []
  PreferredDuringSchedulingIgnoredDuringExecution : List WeightedPodAffinityTerm := []
deriving DecidableEq, Repr

/-- Kubernetes `v1.Affinity`, the two pointer fields the source sets. -/
structure Affinity where
  NodeAffinity : Option NodeAffinity
  PodAffinity : Option PodAffinity
deriving DecidableEq, Repr

/-- Source constant `hostnameTopologyKey`. -/
def hostnameTopologyKey : GoString := utf8 "kubernetes.io/hostname"

/-- Source function `getNodeSelectorExpressions`: one requirement per entry
of the map, in iteration order. -/
def getNodeSelectorExpressions (labelMap : List (GoString × GoString))
    (operator : SelectorOperator) : List NodeSelectorRequirement :=
  labelMap.foldl
    (fun expressions kv =>
      expressions ++ [{ Key := kv.1, Operator := operator, Values := [kv.2] }])
    []

/-- Source function `getLabelSelectorExpressions`: one requirement per entry
of the map, key and value hashed. -/
def getLabelSelectorExpressions (Hash : GoString → GoString)
    (labelMap : List (GoString × GoString))
    (operator : SelectorOperator) : List LabelSelectorRequirement :=
  labelMap.foldl
    (fun expressions kv =>
      expressions ++ [{ Key := Hash kv.1, Operator := operator, Values := [Hash kv.2] }])
    []

/-- The container carries the global marker: the test
`val, ok := container.Labels[labels.GlobalLabel]; ok && val == "true"`, true
only for a value of dynamic type string equal to `"true"`. -/
def isGlobal (L : LabelNames) (container : Container) : Bool :=
  match mapGet container.Labels L.GlobalLabel with
  | some val => decide (val = Iface.str (utf8 "true"))
  | none => false

/-- One of the eight blocks `x, ok := container.Labels[name]; if ok { .. }` of
`getAffinity`: the expressions with the selectors of the label appended and
the flag `anyAffinities` set, when the label is present. -/
def affinityBlock {R : Type} (container : Container) (name : GoString)
    (selectorsOf : Iface → List R) (state : List R × Bool) : List R × Bool :=
  match mapGet container.Labels name with
  | some value => (state.1 ++ selectorsOf value, true)
  | none => state

/-- Source function `getAffinity`. `Parse` is `labels.Parse`, `Hash` is
`utils.Hash`; `none` is the nil pointer. -/
def getAffinity (L : LabelNames) (Parse : Iface → List (GoString × GoString))
    (Hash : GoString → GoString) (container : Container) (ns : GoString) :
    Option Affinity :=
  if isGlobal L container then none
  else
    let anyAffinities := false
    let (matchExpressions, anyAffinities) :=
      affinityBlock container L.HostAffinityLabel
        (fun v => getNodeSelectorExpressions (Parse v) SelectorOperator.In)
        (([] : List NodeSelectorRequirement), anyAffinities)
    let (matchExpressions, anyAffinities) :=
      affinityBlock container L.HostAntiAffinityLabel
        (fun v => getNodeSelectorExpressions (Parse v) SelectorOperator.NotIn)
        (matchExpressions, anyAffinities)
    let (softMatchExpressions, anyAffinities) :=
      affinityBlock container L.HostSoftAffinityLabel
        (fun v => getNodeSelectorExpressions (Parse v) SelectorOperator.In)
        (([] : List NodeSelectorRequirement), anyAffinities)
    let (softMatchExpressions, anyAffinities) :=
      affinityBlock container L.HostSoftAntiAffinityLabel
        (fun v => getNodeSelectorExpressions (Parse v) SelectorOperator.NotIn)
        (softMatchExpressions, anyAffinities)
    let (podAffinityMatchExpressions, anyAffinities) :=
      affinityBlock container L.ContainerAffinityLabel
        (fun v => getLabelSelectorExpressions Hash (Parse v) SelectorOperator.In)
        (([] : List LabelSelectorRequirement), anyAffinities)
    let (podAffinityMatchExpressions, anyAffinities) :=
      affinityBlock container L.ContainerAntiAffinityLabel
        (fun v => getLabelSelectorExpressions Hash (Parse v) SelectorOperator.NotIn)
        (podAffinityMatchExpressions, anyAffinities)
    let (softPodAffinityMatchExpressions, anyAffinities) :=
      affinityBlock container L.ContainerSoftAffinityLabel
        (fun v => getLabelSelectorExpressions Hash (Parse v) SelectorOperator.In)
        (([] : List LabelSelectorRequirement), anyAffinities)
    let (softPodAffinityMatchExpressions, anyAffinities) :=
      affinityBlock container L.ContainerSoftAntiAffinityLabel
        (fun v => getLabelSelectorExpressions Hash (Parse v) SelectorOperator.NotIn)
        (softPodAffinityMatchExpressions, anyAffinities)
    if !anyAffinities then none
    else
      let nodeAffinity : NodeAffinity := {}
      let podAffinity : PodAffinity := {}
      let nodeAffinity :=
        if matchExpressions.length > 0 then
          { nodeAffinity with
            RequiredDuringSchedulingIgnoredDuringExecution :=
              some { NodeSelectorTerms := [{ MatchExpressions := matchExpressions }] } }
        else nodeAffinity
      let nodeAffinity :=
        if softMatchExpressions.length > 0 then
          { nodeAffinity with
            PreferredDuringSchedulingIgnoredDuringExecution :=
              [{ Preference := { MatchExpressions := softMatchExpressions } }] }
        else nodeAffinity
      let podAffinity :=
        if podAffinityMatchExpressions.length > 0 then
          { podAffinity with
            RequiredDuringSchedulingIgnoredDuringExecution :=
              [{ LabelSelector := some { MatchExpressions := podAffinityMatchExpressions },
                 Namespaces := [ns],
                 TopologyKey := hostnameTopologyKey }] }
        else podAffinity
      let podAffinity :=
        if softPodAffinityMatchExpressions.length > 0 then
          { podAffinity with
            PreferredDuringSchedulingIgnoredDuringExecution :=
              [{ PodAffinityTerm :=
                  { LabelSelector :=
                      some { MatchExpressions := softPodAffinityMatchExpressions },
                    Namespaces := [ns],
                    TopologyKey := hostnameTopologyKey } }] }
        else podAffinity
      some { NodeAffinity := some nodeAffinity, PodAffinity := some podAffinity }

/-- The eight constraint label names, in the order `getAffinity` reads them. -/
def constraintLabels (L : LabelNames) : List GoString :=
  [L.HostAffinityLabel, L.HostAntiAffinityLabel, L.HostSoftAffinityLabel,
   L.HostSoftAntiAffinityLabel, L.ContainerAffinityLabel, L.ContainerAntiAffinityLabel,
   L.ContainerSoftAffinityLabel, L.ContainerSoftAntiAffinityLabel]

/-- First occurrence of `sep` in `s`: the bytes before it and the bytes after
it; `none` when `sep` does not occur. -/
def cutAt (s : GoString) (sep : Nat) : Option (GoString × GoString) :=
  match s with
  | [] => none
  | b :: rest =>
    if b = sep then some ([], rest)
    else
      match cutAt rest sep with
      | none => none
      | some (before, after) => some (b :: before, after)

/-- Modelled from the spec: `labels.Parse` is declared outside
`podfromdu.go`. The spec (4.1) has it parse one string value into a key to
value mapping, pairs separated by commas, `=` between key and value, entries
that are not of that form dropped. Used where a theorem needs a concrete
parser; the functions take the parser as a parameter. -/
def labelsParse (label : Iface) : List (GoString × GoString) :=
  (stringsSplit (fmtSprint label) 44).foldl
    (fun labelMap kvPair =>
      match cutAt kvPair 61 with
      | some (k, v) => mapSet labelMap k v
      | none => labelMap)
    []

/-- Modelled from the spec: the label names of package `labels` are declared
outside `podfromdu.go` and the spec does not spell them; these are distinct
names in the style of Rancher scheduling labels, for evaluations. The
theorems hold for every choice of names. -/
def sampleLabelNames : LabelNames where
  RevisionLabel := utf8 "io.rancher.revision"
  DeploymentUuidLabel := utf8 "io.rancher.deployment.uuid"
  GlobalLabel := utf8 "io.rancher.scheduler.global"
  HostAffinityLabel := utf8 "io.rancher.scheduler.affinity:host_label"
  HostAntiAffinityLabel := utf8 "io.rancher.scheduler.affinity:host_label_ne"
  HostSoftAffinityLabel := utf8 "io.rancher.scheduler.affinity:host_label_soft"
  HostSoftAntiAffinityLabel := utf8 "io.rancher.scheduler.affinity:host_label_soft_ne"
  ContainerAffinityLabel := utf8 "io.rancher.scheduler.affinity:container_label"
  ContainerAntiAffinityLabel := utf8 "io.rancher.scheduler.affinity:container_label_ne"
  ContainerSoftAffinityLabel := utf8 "io.rancher.scheduler.affinity:container_label_soft"
  ContainerSoftAntiAffinityLabel :=
    utf8 "io.rancher.scheduler.affinity:container_label_soft_ne"

/-- The four protocol suffixes `getPorts` accepts. -/
def portSuffixes : List GoString := [utf8 "/tcp", utf8 "/TCP", utf8 "/udp", utf8 "/UDP"]

/-- The protocol `getPorts` gives to a suffix: TCP for `/tcp` and `/TCP`, UDP
for the other two. -/
def suffixProtocol (suffix : GoString) : Protocol :=
  if suffix = utf8 "/tcp" ∨ suffix = utf8 "/TCP" then Protocol.TCP else Protocol.UDP

/-- The host-path volume the specification gives one data-volume string: the
string is split on `:`; with at least two segments and an absolute first
segment, a volume named `Hash` of the first segment whose host path is the
first segment; otherwise nothing. -/
def specHostPathVolume (Hash : GoString → GoString) (volume : GoString) : Option Volume :=
  let segments := stringsSplit volume 58
  if 2 ≤ segments.length ∧ filepathIsAbs (segments.getD 0 []) = true then
    some { Name := Hash (segments.getD 0 []),
           VolumeSource := { HostPath := some { Path := segments.getD 0 [] } } }
  else none

/-- The mount the specification gives one data-volume string: under the same
condition, a mount named `Hash` of the first segment at the second segment. -/
def specHostPathMount (Hash : GoString → GoString) (volume : GoString) : Option VolumeMount :=
  let segments := stringsSplit volume 58
  if 2 ≤ segments.length ∧ filepathIsAbs (segments.getD 0 []) = true then
    some { Name := Hash (segments.getD 0 []), MountPath := segments.getD 1 [] }
  else none

/-- The memory-backed empty-directory volume of a tmpfs path. -/
def tmpfsVolume (Hash : GoString → GoString) (tmpfs : GoString) : Volume :=
  { Name := Hash tmpfs, VolumeSource := { EmptyDir := some { Medium := StorageMediumMemory } } }

/-- The mount of a tmpfs path. -/
def tmpfsMount (Hash : GoString → GoString) (tmpfs : GoString) : VolumeMount :=
  { Name := Hash tmpfs, MountPath := tmpfs }

/-- A stand-in for the Unicode path of `strings.ToLower` in evaluations on
ASCII input, which never reach it. -/
def noUnicode : GoString → GoString := fun s => s

/-! ## Affinity: the four slots of the result -/

/-- The pairs a constraint label of the container parses to: `Parse` of its
value when the label is present, no pair when it is absent. -/
def parsedPairs (Parse : Iface → List (GoString × GoString)) (container : Container)
    (name : GoString) : List (GoString × GoString) :=
  match mapGet container.Labels name with
  | some value => Parse value
  | none => []

/-- The node-selector requirement of one pair: the literal key, the operator
and the literal value as the only value. -/
def nodeRequirement (operator : SelectorOperator) (kv : GoString × GoString) :
    NodeSelectorRequirement :=
  { Key := kv.1, Operator := operator, Values := [kv.2] }

/-- The label-selector requirement of one pair: the hashed key, the operator
and the hashed value as the only value. -/
def labelRequirement (Hash : GoString → GoString) (operator : SelectorOperator)
    (kv : GoString × GoString) : LabelSelectorRequirement :=
  { Key := Hash kv.1, Operator := operator, Values := [Hash kv.2] }

/-- Slot "required node selector terms" of a result of `getAffinity`: the
terms of `NodeAffinity.RequiredDuringSchedulingIgnoredDuringExecution`, none
for a nil pointer on the way. -/
def requiredNodeTerms (affinity : Option Affinity) : List NodeSelectorTerm :=
  match affinity with
  | none => []
  | some a =>
    match a.NodeAffinity with
    | none => []
    | some nodeAffinity =>
      match nodeAffinity.RequiredDuringSchedulingIgnoredDuringExecution with
      | none => []
      | some selector => selector.NodeSelectorTerms

/-- Slot "preferred node scheduling terms" of a result of `getAffinity`. -/
def preferredNodeTerms (affinity : Option Affinity) : List PreferredSchedulingTerm :=
  match affinity with
  | none => []
  | some a =>
    match a.NodeAffinity with
    | none => []
    | some nodeAffinity => nodeAffinity.PreferredDuringSchedulingIgnoredDuringExecution

/-- Slot "required pod-affinity terms" of a result of `getAffinity`. -/
def requiredPodTerms (affinity : Option Affinity) : List PodAffinityTerm :=
  match affinity with
  | none => []
  | some a =>
    match a.PodAffinity with
    | none => []
    | some podAffinity => podAffinity.RequiredDuringSchedulingIgnoredDuringExecution

/-- Slot "preferred weighted pod-affinity terms" of a result of
`getAffinity`. -/
def preferredPodTerms (affinity : Option Affinity) : List WeightedPodAffinityTerm :=
  match affinity with
  | none => []
  | some a =>
    match a.PodAffinity with
    | none => []
    | some podAffinity => podAffinity.PreferredDuringSchedulingIgnoredDuringExecution

/-- The requirements of a pod-affinity term: the match expressions of its
label selector, none for a nil selector. -/
def podTermExpressions (term : PodAffinityTerm) : List LabelSelectorRequirement :=
  match term.LabelSelector with
  | none => []
  | some selector => selector.MatchExpressions

/-- The single term a slot holds for a list of requirements: no term for no
requirement. -/
def oneTerm {R T : Type} (mk : List R → T) (expressions : List R) : List T :=
  if expressions.length > 0 then [mk expressions] else []

/-- The number of requirements of each term of each of the four slots of a
result of `getAffinity`, in the order: required node selector terms,
preferred node scheduling terms, required pod-affinity terms, preferred
weighted pod-affinity terms. -/
def slotRequirementCounts (affinity : Option Affinity) : List (List Nat) :=
  [(requiredNodeTerms affinity).map (fun t => t.MatchExpressions.length),
   (preferredNodeTerms affinity).map (fun t => t.Preference.MatchExpressions.length),
   (requiredPodTerms affinity).map (fun t => (podTermExpressions t).length),
   (preferredPodTerms affinity).map (fun t => (podTermExpressions t.PodAffinityTerm).length)]

/-- The requirement counts of a slot whose group of labels parsed to `n`
pairs: one term with `n` requirements, or no term when `n` is 0. -/
def oneTermOf (n : Nat) : List Nat := if 0 < n then [n] else []

/-! ## Host aliases -/

/-- Go `strings.SplitN(s, sep, 2)` for a one-byte separator: the text before
the first occurrence of `sep` and all the text after it, or `s` alone when
`sep` does not occur. -/
def stringsSplitN2 (s : GoString) (sep : Nat) : List GoString :=
  match cutAt s sep with
  | some (before, after) => [before, after]
  | none => [s]

/-- Kubernetes `v1.HostAlias`. -/
structure HostAlias where
  IP : GoString
  Hostnames : List GoString
deriving DecidableEq, Repr

/-- The loop body of `getHostAliases` for one extra-host string: the alias it
appends, or `none` where the source says `continue`. The pattern
`p0 :: p1 :: _` is the test `len(parts) >= 2`. -/
def getHostAliasesEntry (extraHost : GoString) : Option HostAlias :=
  match stringsSplitN2 extraHost 58 with
  | p0 :: p1 :: _ => some { IP := p1, Hostnames := [p0] }
  | _ => none

/-- Source function `getHostAliases`. -/
def getHostAliases (container : Container) : List HostAlias :=
  container.ExtraHosts.foldl
    (fun hostAliases extraHost => appendEntry hostAliases (getHostAliasesEntry extraHost)) []

/-! ## Pod labels -/

/-- Source function `getLabels`: the map literal with the two reserved keys,
then one assignment per label of the primary container. `none` is the panic
of `primary` on a unit without containers. -/
def getLabels (L : LabelNames) (Hash : GoString → GoString)
    (deploymentUnit : DeploymentSyncRequest) : Option (List (GoString × GoString)) :=
  let podLabels : List (GoString × GoString) :=
    mapSet (mapSet [] L.RevisionLabel deploymentUnit.Revision)
      L.DeploymentUuidLabel deploymentUnit.DeploymentUnitUuid
  match primary deploymentUnit with
  | none => none
  | some p =>
    some (p.Labels.foldl
      (fun podLabels kv => mapSet podLabels (Hash kv.1) (Hash (fmtSprint kv.2))) podLabels)

/-! ## Reconciler (`sync/reconcile_pod.go`) -/

/-- Kubernetes `v1.ContainerStatus`, the field the source reads. -/
structure ContainerStatus where
  Ready : Bool
deriving DecidableEq, Repr

/-- Kubernetes `v1.PodSpec`, the field the reconciler reads. -/
structure PodSpec where
  NodeName : GoString := []
deriving DecidableEq, Repr

/-- Kubernetes `v1.PodStatus`, the field the reconciler reads. -/
structure PodStatus where
  ContainerStatuses : List ContainerStatus := []
deriving DecidableEq, Repr

/-- Kubernetes `v1.Pod`, the fields the reconciler reads. -/
structure Pod where
  Name : GoString := []
  Labels : List (GoString × GoString) := []
  Spec : PodSpec := {}
  Status : PodStatus := {}
deriving DecidableEq, Repr

/-- A call on the cluster client: `Pods(ns).Create(&pod)` or
`Pods(ns).Delete(name, ..)`. -/
inductive ClusterOp where
  | create (pod : Pod)
  | delete (name : GoString)
deriving DecidableEq, Repr

/-- The cluster client as the reconciler sees it: the error each call
returns, `none` for nil. -/
structure Clientset where
  Create : Pod → Option GoString
  Delete : GoString → Option GoString

/-- What a run of `reconcilePod` does: the calls made on the cluster client,
the errors handed to `log.Error`, and the pair `(pod, error)` it returns,
`none` as long as the wait loop is still polling when the observations end. -/
structure ReconcileRun where
  ops : List ClusterOp
  logged : List GoString
  returned : Option (Pod × Option GoString)

/-- Map index `m[k]` on a `map[string]string` without the comma-ok form: the
empty string when the key is absent. -/
def mapIndex (m : List (GoString × GoString)) (k : GoString) : GoString :=
  match mapGet m k with
  | some v => v
  | none => []

/-- First part of source function `reconcilePod`, up to the wait loop, for
the answer `first` of the first `watchClient.GetPod(pod.Name)`: the calls on
the cluster client and the errors logged. `createPod` and `deletePod` are
inlined: one call on the client each, whose error is logged and dropped. -/
def reconcileFirstPhase (L : LabelNames) (clientset : Clientset) (pod : Pod)
    (first : Option Pod) : List ClusterOp × List GoString :=
  let revision := mapIndex pod.Labels L.RevisionLabel
  match first with
  | some existingPod =>
    match mapGet existingPod.Labels L.RevisionLabel with
    | some existingRevision =>
      if revision ≠ existingRevision then
        ([ClusterOp.delete pod.Name], (clientset.Delete pod.Name).toList)
      else ([], [])
    | none => ([], [])
  | none => ([ClusterOp.create pod], (clientset.Create pod).toList)

/-- The inner loop over `existingPod.Status.ContainerStatuses`: false at the
first status that is not ready. -/
def allContainersReady : List ContainerStatus → Bool
  | [] => true
  | containerStatus :: rest =>
    if !containerStatus.Ready then false else allContainersReady rest

/-- The wait loop `for { .. }` of `reconcilePod` over the answers of the
successive `watchClient.GetPod(pod.Name)`: the first answer that is found,
has a node name and has all containers ready is returned with a nil error;
any other answer is followed by the next poll. `none` when the answers end
before the loop returns. -/
def waitLoop : List (Option Pod) → Option (Pod × Option GoString)
  | [] => none
  | none :: later => waitLoop later
  | some existingPod :: later =>
    if existingPod.Spec.NodeName ≠ [] then
      if allContainersReady existingPod.Status.ContainerStatuses then some (existingPod, none)
      else waitLoop later
    else waitLoop later

/-- Source function `reconcilePod`. The watch client is the sequence of its
answers: `first` to the call before the wait loop, `polled` to the calls of
the wait loop, in order. -/
def reconcilePod (L : LabelNames) (clientset : Clientset) (pod : Pod)
    (first : Option Pod) (polled : List (Option Pod)) : ReconcileRun :=
  let phase := reconcileFirstPhase L clientset pod first
  { ops := phase.1, logged := phase.2, returned := waitLoop polled }

/-- An observation on which the wait loop returns, in the words of the
specification: the pod is found, it has a non-empty node name, and every
container status reports ready. -/
def observationReady : Option Pod → Bool
  | none => false
  | some p => decide (p.Spec.NodeName ≠ []) && p.Status.ContainerStatuses.all (fun s => s.Ready)

/-- The revision label of an observed or desired pod. -/
def podRevision (L : LabelNames) (p : Pod) : Option GoString :=
  mapGet p.Labels L.RevisionLabel

/-- A desired pod of revision 2, for evaluations. -/
def sampleDesiredPod : Pod :=
  { Name := utf8 "web-abcdef12",
    Labels := [(sampleLabelNames.RevisionLabel, utf8 "2")] }

/-- An observed pod of the same name and of revision 1, scheduled on a node
and with its one container ready, for evaluations. -/
def sampleStalePod : Pod :=
  { Name := utf8 "web-abcdef12",
    Labels := [(sampleLabelNames.RevisionLabel, utf8 "1")],
    Spec := { NodeName := utf8 "node-1" },
    Status := { ContainerStatuses := [{ Ready := true }] } }

/-- A cluster client whose calls all succeed, for evaluations. -/
def sampleClientset : Clientset :=
  { Create := fun _ => none, Delete := fun _ => none }

/-- An observed pod of the same name and of revision 2, the desired
revision, scheduled on a node and with its one container ready, for
evaluations. -/
def sampleCurrentPod : Pod :=
  { Name := utf8 "web-abcdef12",
    Labels := [(sampleLabelNames.RevisionLabel, utf8 "2")],
    Spec := { NodeName := utf8 "node-1" },
    Status := { ContainerStatuses := [{ Ready := true }] } }

/-- The first `n` characters of a text, as the bytes of a Go string. -/
def firstCharacters (text : String) (n : Nat) : GoString :=
  utf8 (String.mk (text.toList.take n))

/-! # Theorems -/

/-! ## Lemmas on strings -/

theorem asciiLower_not_upper (b : Nat) : isUpperASCII (asciiLower b) = false := by
  unfold asciiLower isUpperASCII
  split <;> simp_all
  omega

theorem asciiLower_isASCII (b : Nat) (h : isASCII b = true) : isASCII (asciiLower b) = true := by
  unfold asciiLower isUpperASCII isASCII at *
  split <;> simp_all
  omega

theorem asciiLower_eq_self_iff (b : Nat) : asciiLower b = b ↔ isUpperASCII b = false := by
  unfold asciiLower
  cases h : isUpperASCII b <;> simp

theorem map_asciiLower_any_upper (s : GoString) :
    (s.map asciiLower).any isUpperASCII = false := by
  induction s with
  | nil => rfl
  | cons b s ih => simp [asciiLower_not_upper, ih]

theorem map_asciiLower_all_ascii (s : GoString) (h : s.all isASCII = true) :
    (s.map asciiLower).all isASCII = true := by
  induction s with
  | nil => rfl
  | cons b s ih =>
    simp only [List.all_cons, Bool.and_eq_true] at h
    simp only [List.map_cons, List.all_cons, Bool.and_eq_true]
    exact ⟨asciiLower_isASCII b h.1, ih h.2⟩

theorem map_asciiLower_eq_self_iff (s : GoString) :
    s.map asciiLower = s ↔ s.any isUpperASCII = false := by
  induction s with
  | nil => simp
  | cons b s ih =>
    simp only [List.map_cons, List.cons.injEq, List.any_cons, Bool.or_eq_false_iff, ih,
      asciiLower_eq_self_iff]

/-- On an ASCII string, being lowercase is having no upper-case letter. -/
theorem isLowercase_iff_of_ascii (U : GoString → GoString) (s : GoString)
    (h : s.all isASCII = true) : isLowercase U s ↔ s.any isUpperASCII = false := by
  unfold isLowercase stringsToLower
  rw [if_pos h, map_asciiLower_eq_self_iff]
  simp

theorem getPodName_eq (U : GoString → GoString) (deploymentUnit : DeploymentSyncRequest)
    (c : Container) (rest : List Container) (hc : deploymentUnit.Containers = c :: rest)
    (hid : 8 ≤ deploymentUnit.DeploymentUnitUuid.length) :
    getPodName U deploymentUnit
      = some (stringsToLower U c.Name ++ utf8 "-" ++ deploymentUnit.DeploymentUnitUuid.take 8) := by
  simp [getPodName, primary, hc, sliceTo, hid, transformContainerName]

theorem utf8EncodeChar_ascii (ch : Char) (h : ch.toNat < 128) :
    ∃ b, String.utf8EncodeChar ch = [b] := by
  have hv : ch.val ≤ 0x7f := by
    rw [UInt32.le_def]
    show ch.val.toNat ≤ 127
    have : ch.toNat = ch.val.toNat := rfl
    omega
  exact ⟨ch.val.toUInt8, by simp [String.utf8EncodeChar, hv]⟩

theorem take_flatMap_ascii (chars : List Char) : ∀ n : Nat,
    (∀ ch ∈ chars.take n, ch.toNat < 128) →
    (chars.flatMap String.utf8EncodeChar).take n
      = (chars.take n).flatMap String.utf8EncodeChar := by
  induction chars with
  | nil => intro n _; simp
  | cons ch rest ih =>
    intro n h
    cases n with
    | zero => simp
    | succ m =>
      obtain ⟨b, hb⟩ := utf8EncodeChar_ascii ch (h ch (by simp))
      have hrest : ∀ x ∈ rest.take m, x.toNat < 128 :=
        fun x hx => h x (by simp [hx])
      simp only [List.flatMap_cons, List.take_succ_cons, hb, List.singleton_append,
        ih m hrest]

/-- The first 8 bytes of a text are its first 8 characters when those
characters are ASCII. -/
theorem take_utf8_ascii (text : String) (n : Nat)
    (h : ∀ ch ∈ text.toList.take n, ch.toNat < 128) :
    (utf8 text).take n = firstCharacters text n := by
  unfold firstCharacters utf8
  rw [← List.map_take, take_flatMap_ascii text.toList n h]
  rfl

/-- C1, counterexample. The unit id `abcdefgéxyz` has 11 characters, of which
the eighth takes two bytes. With primary container `Web` the pod name ends in
the first 8 bytes of the id, `abcdefg` and the first byte (195) of `é`, not in
its first 8 characters `abcdefgé`: the source slices the string by bytes. -/
theorem getPodName_multibyte_id :
    "abcdefgéxyz".toList.length = 11
    ∧ firstCharacters "abcdefgéxyz" 8 = utf8 "abcdefgé"
    ∧ getPodName noUnicode
        { DeploymentUnitUuid := utf8 "abcdefgéxyz", Containers := [{ Name := utf8 "Web" }] }
      = some (utf8 "web-abcdefg" ++ [195])
    ∧ getPodName noUnicode
        { DeploymentUnitUuid := utf8 "abcdefgéxyz", Containers := [{ Name := utf8 "Web" }] }
      ≠ some (utf8 "web-" ++ firstCharacters "abcdefgéxyz" 8) := by
  decide

/-- C1, amended. For every deployment unit with at least one container and a
unit id of at least 8 bytes, `getPodName` returns the lowercased name of the
primary (first) container, then `-`, then the first 8 bytes of the unit id.
These are the first 8 characters of the unit id whenever those characters are
ASCII, as in a UUID; primary name `Web` and unit id `abcdef1234567890` give
`web-abcdef12`. -/
theorem getPodName_format (unicodeLower : GoString → GoString)
    (deploymentUnit : DeploymentSyncRequest) (c : Container) (rest : List Container)
    (hc : deploymentUnit.Containers = c :: rest)
    (hid : 8 ≤ deploymentUnit.DeploymentUnitUuid.length) :
    getPodName unicodeLower deploymentUnit
        = some (stringsToLower unicodeLower c.Name ++ utf8 "-"
                ++ deploymentUnit.DeploymentUnitUuid.take 8)
      ∧ (∀ id : String, deploymentUnit.DeploymentUnitUuid = utf8 id →
          (∀ ch ∈ id.toList.take 8, ch.toNat < 128) →
          getPodName unicodeLower deploymentUnit
            = some (stringsToLower unicodeLower c.Name ++ utf8 "-" ++ firstCharacters id 8))
      ∧ (c.Name = utf8 "Web" → deploymentUnit.DeploymentUnitUuid = utf8 "abcdef1234567890" →
          getPodName unicodeLower deploymentUnit = some (utf8 "web-abcdef12")) := by
  refine ⟨getPodName_eq unicodeLower deploymentUnit c rest hc hid, ?_, ?_⟩
  · intro id hidtext hascii
    rw [getPodName_eq unicodeLower deploymentUnit c rest hc hid, hidtext,
      take_utf8_ascii id 8 hascii]
  · intro hn hu
    have hlow : stringsToLower unicodeLower (utf8 "Web") = utf8 "web" := by
      unfold stringsToLower
      rw [if_pos (by decide)]
      decide
    rw [getPodName_eq unicodeLower deploymentUnit c rest hc hid, hn, hu, hlow]
    decide

theorem getPodName_format_witness :
    getPodName noUnicode
        { DeploymentUnitUuid := utf8 "abcdef1234567890", Containers := [{ Name := utf8 "Web" }] }
      = some (utf8 "web-abcdef12") :=
  (getPodName_format noUnicode
    { DeploymentUnitUuid := utf8 "abcdef1234567890", Containers := [{ Name := utf8 "Web" }] }
    { Name := utf8 "Web" } [] rfl (by decide)).2.2 rfl rfl

/-- C2, counterexample. With primary container `Web` and unit id
`ABCDEF1234567890` the pod name is `web-ABCDEF12`, which is not lowercase:
only the container name is lowered, the unit id is copied as it is. -/
theorem getPodName_uppercase_id :
    getPodName noUnicode
        { DeploymentUnitUuid := utf8 "ABCDEF1234567890", Containers := [{ Name := utf8 "Web" }] }
      = some (utf8 "web-ABCDEF12")
    ∧ ¬ isLowercase noUnicode (utf8 "web-ABCDEF12") := by
  refine ⟨by decide, ?_⟩
  rw [isLowercase_iff_of_ascii _ _ (by decide)]
  decide

/-- C2, amended. For a deployment unit with at least one container, an ASCII
primary container name and a unit id whose first 8 bytes are ASCII, the pod
name is lowercase exactly when those 8 bytes hold no upper-case letter. -/
theorem getPodName_lowercase_iff (unicodeLower : GoString → GoString)
    (deploymentUnit : DeploymentSyncRequest) (c : Container) (rest : List Container)
    (hc : deploymentUnit.Containers = c :: rest)
    (hid : 8 ≤ deploymentUnit.DeploymentUnitUuid.length)
    (hname : c.Name.all isASCII = true)
    (hascii : (deploymentUnit.DeploymentUnitUuid.take 8).all isASCII = true) :
    ∃ podName, getPodName unicodeLower deploymentUnit = some podName
      ∧ (isLowercase unicodeLower podName
          ↔ (deploymentUnit.DeploymentUnitUuid.take 8).any isUpperASCII = false) := by
  refine ⟨_, getPodName_eq unicodeLower deploymentUnit c rest hc hid, ?_⟩
  have hlow : stringsToLower unicodeLower c.Name = c.Name.map asciiLower := by
    unfold stringsToLower; rw [if_pos hname]
  rw [hlow]
  have hall : (c.Name.map asciiLower ++ utf8 "-"
      ++ deploymentUnit.DeploymentUnitUuid.take 8).all isASCII = true := by
    rw [List.all_append, List.all_append, map_asciiLower_all_ascii _ hname, hascii]
    decide
  rw [isLowercase_iff_of_ascii _ _ hall, List.any_append, List.any_append,
    map_asciiLower_any_upper]
  have : (utf8 "-").any isUpperASCII = false := by decide
  rw [this]
  simp

theorem getPodName_lowercase_iff_witness :
    ∃ podName,
      getPodName noUnicode
          { DeploymentUnitUuid := utf8 "abcdef1234567890",
            Containers := [{ Name := utf8 "Web" }] } = some podName
      ∧ (isLowercase noUnicode podName
          ↔ ((utf8 "abcdef1234567890").take 8).any isUpperASCII = false) :=
  getPodName_lowercase_iff noUnicode
    { DeploymentUnitUuid := utf8 "abcdef1234567890", Containers := [{ Name := utf8 "Web" }] }
    { Name := utf8 "Web" } [] rfl (by decide) (by decide) (by decide)

/-! ## Lemmas on suffixes, replacement and splitting -/

theorem stringsHasSuffix_append_same_length (x suf suf' : GoString)
    (hlen : suf.length = suf'.length) :
    stringsHasSuffix (x ++ suf') suf = (suf' == suf) := by
  unfold stringsHasSuffix
  have h1 : suf.length ≤ (x ++ suf').length := by simp [hlen]
  have h2 : (x ++ suf').length - suf.length = x.length := by simp [hlen]
  rw [h2, List.drop_left]
  simp only [h1, decide_True, Bool.true_and]

theorem stringsHasPrefix_cons_ne (b b' : Nat) (rest t : GoString) (h : b ≠ b') :
    stringsHasPrefix (b :: rest) (b' :: t) = false := by
  unfold stringsHasPrefix
  simp [h]

/-- Deleting a text that starts with `/` from a string that has no other `/`
before its final occurrence leaves the part before it. -/
theorem stringsReplaceAux_append_suffix (t x : GoString) (hx : 47 ∉ x)
    (hbase : stringsReplaceAux (47 :: t) [] 0 (47 :: t) = []) :
    stringsReplaceAux (47 :: t) [] 0 (x ++ 47 :: t) = x := by
  induction x with
  | nil => simpa using hbase
  | cons b x ih =>
    have hb : b ≠ 47 := fun h => hx (by simp [h])
    have hx' : 47 ∉ x := fun h => hx (by simp [h])
    simp only [List.cons_append, stringsReplaceAux, stringsHasPrefix_cons_ne b 47 _ t hb]
    simp [ih hx']

theorem stringsSplit_ne_nil (s : GoString) (sep : Nat) : stringsSplit s sep ≠ [] := by
  induction s with
  | nil => simp [stringsSplit]
  | cons b rest ih =>
    unfold stringsSplit
    split
    · simp
    · split <;> simp

theorem stringsSplit_no_sep (s : GoString) (sep : Nat) (h : sep ∉ s) :
    stringsSplit s sep = [s] := by
  induction s with
  | nil => rfl
  | cons b rest ih =>
    have hb : b ≠ sep := fun e => h (by simp [e])
    have hr : sep ∉ rest := fun e => h (by simp [e])
    unfold stringsSplit
    rw [if_neg hb, ih hr]

theorem stringsSplit_append_sep (a b : GoString) (sep : Nat) (h : sep ∉ a) :
    stringsSplit (a ++ sep :: b) sep = a :: stringsSplit b sep := by
  induction a with
  | nil => simp [stringsSplit]
  | cons c rest ih =>
    have hc : c ≠ sep := fun e => h (by simp [e])
    have hr : sep ∉ rest := fun e => h (by simp [e])
    rw [List.cons_append, stringsSplit, if_neg hc, ih hr]

/-! ## Lemmas on decimal numbers -/

theorem fmtNatAux_eq (n : Nat) : ∀ (fuel : Nat) (acc : GoString), n < fuel →
    fmtNatAux fuel n acc = fmtNat n ++ acc := by
  induction n using Nat.strong_induction_on with
  | _ n ih =>
    intro fuel acc hf
    obtain ⟨f, rfl⟩ : ∃ f, fuel = f + 1 := ⟨fuel - 1, by omega⟩
    by_cases hn : n < 10
    · simp [fmtNat, fmtNatAux, hn]
    · have hdiv : n / 10 < n := Nat.div_lt_self (by omega) (by omega)
      have e1 : fmtNatAux (f + 1) n acc = fmtNat (n / 10) ++ (48 + n % 10) :: acc := by
        rw [fmtNatAux, if_neg hn]
        exact ih (n / 10) hdiv f _ (by omega)
      have e2 : fmtNat n = fmtNat (n / 10) ++ [48 + n % 10] := by
        rw [fmtNat, fmtNatAux, if_neg hn]
        exact ih (n / 10) hdiv n _ hdiv
      rw [e1, e2]
      simp

theorem fmtNat_small (n : Nat) (hn : n < 10) : fmtNat n = [48 + n] := by
  simp [fmtNat, fmtNatAux, hn]

theorem fmtNat_large (n : Nat) (hn : ¬ n < 10) :
    fmtNat n = fmtNat (n / 10) ++ [48 + n % 10] := by
  have hdiv : n / 10 < n := Nat.div_lt_self (by omega) (by omega)
  rw [fmtNat, fmtNatAux, if_neg hn]
  exact fmtNatAux_eq (n / 10) n _ hdiv

/-- The rendering of a natural number is a non-empty string of digits. -/
theorem fmtNat_digits (n : Nat) :
    fmtNat n ≠ [] ∧ ∀ b ∈ fmtNat n, 48 ≤ b ∧ b ≤ 57 := by
  induction n using Nat.strong_induction_on with
  | _ n ih =>
    by_cases hn : n < 10
    · rw [fmtNat_small n hn]
      refine ⟨by simp, ?_⟩
      intro b hb
      simp at hb
      omega
    · have hdiv : n / 10 < n := Nat.div_lt_self (by omega) (by omega)
      rw [fmtNat_large n hn]
      refine ⟨by simp, ?_⟩
      intro b hb
      rw [List.mem_append] at hb
      rcases hb with hb | hb
      · exact (ih _ hdiv).2 b hb
      · simp at hb
        have := Nat.mod_lt n (show 10 > 0 by omega)
        omega

theorem parseDigits_append (s t : GoString) : ∀ acc : Nat,
    parseDigits (s ++ t) acc = (parseDigits s acc).bind (parseDigits t) := by
  induction s with
  | nil => intro acc; rfl
  | cons b s ih =>
    intro acc
    simp only [List.cons_append, parseDigits]
    cases digitVal b with
    | none => rfl
    | some d => exact ih _

theorem digitVal_digit (d : Nat) (hd : d < 10) : digitVal (48 + d) = some d := by
  unfold digitVal
  rw [if_pos (by omega)]
  congr 1
  omega

theorem parseDigits_fmtNat (n : Nat) : parseDigits (fmtNat n) 0 = some n := by
  induction n using Nat.strong_induction_on with
  | _ n ih =>
    by_cases hn : n < 10
    · rw [fmtNat_small n hn]
      simp [parseDigits, digitVal_digit n hn]
    · have hdiv : n / 10 < n := Nat.div_lt_self (by omega) (by omega)
      rw [fmtNat_large n hn, parseDigits_append, ih _ hdiv]
      simp only [Option.some_bind, parseDigits,
        digitVal_digit (n % 10) (Nat.mod_lt n (by omega))]
      congr 1
      omega

theorem parseUint_fmtNat (n : Nat) : parseUint (fmtNat n) = some n := by
  have h := (fmtNat_digits n).1
  unfold parseUint
  split
  · exact absurd (by assumption) h
  · exact parseDigits_fmtNat n

/-- Parsing the decimal rendering of a signed 32-bit integer gives it back. -/
theorem strconvParseInt32_fmtInt (i : Int) (hlo : -2 ^ 31 ≤ i) (hhi : i < 2 ^ 31) :
    strconvParseInt32 (fmtInt i) = some i := by
  unfold fmtInt
  by_cases hneg : i < 0
  · rw [if_pos hneg]
    have hn : ¬ (2 ^ 31 < i.natAbs) := by omega
    have habs : |i| = -i := abs_of_neg hneg
    simp [strconvParseInt32, parseUint_fmtNat, hn]
    omega
  · rw [if_neg hneg]
    obtain ⟨hne, hdig⟩ := fmtNat_digits i.natAbs
    have hp := parseUint_fmtNat i.natAbs
    cases hs : fmtNat i.natAbs with
    | nil => exact absurd hs hne
    | cons b rest =>
      have hb := hdig b (by rw [hs]; simp)
      have h43 : b ≠ 43 := by omega
      have h45 : b ≠ 45 := by omega
      have hn : ¬ (2 ^ 31 ≤ i.natAbs) := by omega
      rw [hs] at hp
      have habs : |i| = i := abs_of_nonneg (by omega)
      simp only [strconvParseInt32, h43, h45, or_self, if_false, hp]
      simp [hn]
      omega

theorem fmtInt_bytes (i : Int) : ∀ b ∈ fmtInt i, b = 45 ∨ (48 ≤ b ∧ b ≤ 57) := by
  intro b hb
  unfold fmtInt at hb
  split at hb
  · rcases List.mem_cons.mp hb with h | h
    · exact Or.inl h
    · exact Or.inr ((fmtNat_digits _).2 b h)
  · exact Or.inr ((fmtNat_digits _).2 b hb)

/-! ## Ports -/

theorem foldl_appendEntry {α β : Type} (g : α → Option β) (l : List α) : ∀ acc : List β,
    l.foldl (fun acc a => appendEntry acc (g a)) acc = acc ++ l.filterMap g := by
  induction l with
  | nil => intro acc; simp
  | cons a l ih =>
    intro acc
    rw [List.foldl_cons, ih]
    cases h : g a <;> simp [List.filterMap_cons, h, appendEntry]

theorem getPorts_eq_filterMap (container : Container) :
    getPorts container = container.Ports.filterMap getPortsEntry := by
  unfold getPorts
  rw [foldl_appendEntry getPortsEntry]
  simp

theorem filterMap_eq_flatMap {α β : Type} (g : α → Option β) (l : List α) :
    l.filterMap g = l.flatMap (fun a => (g a).toList) := by
  induction l with
  | nil => rfl
  | cons a l ih => cases h : g a <;> simp [List.filterMap_cons, List.flatMap_cons, h, ih]

theorem getPorts_single (container : Container) (port : GoString) :
    getPorts { container with Ports := [port] } = (getPortsEntry port).toList := by
  rw [getPorts_eq_filterMap]
  cases h : getPortsEntry port <;> simp [List.filterMap_cons, h]

/-- The entries of a container are those of its port strings taken one at a
time, in order. -/
theorem getPorts_flatMap (container : Container) (ports : List GoString) :
    getPorts { container with Ports := ports }
      = ports.flatMap (fun port => getPorts { container with Ports := [port] }) := by
  rw [getPorts_eq_filterMap, filterMap_eq_flatMap]
  congr 1

theorem getPortsProtocol_append (body suffix : GoString) (hs : suffix ∈ portSuffixes) :
    getPortsProtocol (body ++ suffix)
      = some (suffixProtocol suffix, stringsReplaceAll (body ++ suffix) suffix []) := by
  have e1 : ((utf8 "/TCP") == (utf8 "/tcp")) = false := by decide
  have e2 : ((utf8 "/udp") == (utf8 "/tcp")) = false := by decide
  have e3 : ((utf8 "/udp") == (utf8 "/TCP")) = false := by decide
  have e4 : ((utf8 "/UDP") == (utf8 "/tcp")) = false := by decide
  have e5 : ((utf8 "/UDP") == (utf8 "/TCP")) = false := by decide
  have e6 : ((utf8 "/UDP") == (utf8 "/udp")) = false := by decide
  have p1 : suffixProtocol (utf8 "/tcp") = Protocol.TCP := by decide
  have p2 : suffixProtocol (utf8 "/TCP") = Protocol.TCP := by decide
  have p3 : suffixProtocol (utf8 "/udp") = Protocol.UDP := by decide
  have p4 : suffixProtocol (utf8 "/UDP") = Protocol.UDP := by decide
  unfold getPortsProtocol
  simp only [portSuffixes, List.mem_cons, List.mem_singleton, List.not_mem_nil, or_false] at hs
  rcases hs with rfl | rfl | rfl | rfl
  · rw [stringsHasSuffix_append_same_length _ _ _ rfl]
    simp [p1]
  · rw [stringsHasSuffix_append_same_length _ _ _ (by decide), e1,
      stringsHasSuffix_append_same_length _ _ _ rfl]
    simp [p2]
  · rw [stringsHasSuffix_append_same_length _ _ _ (by decide), e2,
      stringsHasSuffix_append_same_length _ _ _ (by decide), e3,
      stringsHasSuffix_append_same_length _ _ _ rfl]
    simp [p3]
  · rw [stringsHasSuffix_append_same_length _ _ _ (by decide), e4,
      stringsHasSuffix_append_same_length _ _ _ (by decide), e5,
      stringsHasSuffix_append_same_length _ _ _ (by decide), e6,
      stringsHasSuffix_append_same_length _ _ _ rfl]
    simp [p4]

theorem stringsReplaceAll_suffix (body suffix : GoString) (hs : suffix ∈ portSuffixes)
    (hb : 47 ∉ body) : stringsReplaceAll (body ++ suffix) suffix [] = body := by
  have t1 : utf8 "/tcp" = 47 :: [116, 99, 112] := by decide
  have t2 : utf8 "/TCP" = 47 :: [84, 67, 80] := by decide
  have t3 : utf8 "/udp" = 47 :: [117, 100, 112] := by decide
  have t4 : utf8 "/UDP" = 47 :: [85, 68, 80] := by decide
  simp only [portSuffixes, List.mem_cons, List.mem_singleton, List.not_mem_nil, or_false] at hs
  unfold stringsReplaceAll
  rcases hs with rfl | rfl | rfl | rfl
  · rw [t1, if_neg (by simp)]
    exact stringsReplaceAux_append_suffix _ body hb (by decide)
  · rw [t2, if_neg (by simp)]
    exact stringsReplaceAux_append_suffix _ body hb (by decide)
  · rw [t3, if_neg (by simp)]
    exact stringsReplaceAux_append_suffix _ body hb (by decide)
  · rw [t4, if_neg (by simp)]
    exact stringsReplaceAux_append_suffix _ body hb (by decide)

theorem getPortsEntry_append (body suffix : GoString) (hs : suffix ∈ portSuffixes)
    (hrep : stringsReplaceAll (body ++ suffix) suffix [] = body) :
    getPortsEntry (body ++ suffix) =
      match stringsSplit body 58 with
      | p0 :: p1 :: _ =>
        match strconvParseInt32 p0 with
        | none => none
        | some hostPort =>
          match strconvParseInt32 p1 with
          | none => none
          | some containerPort =>
            some { ContainerPort := containerPort, HostPort := hostPort,
                   Protocol := suffixProtocol suffix }
      | _ => none := by
  unfold getPortsEntry
  rw [getPortsProtocol_append body suffix hs, hrep]

theorem getPortsEntry_numeric (h c : Int) (suffix : GoString) (hs : suffix ∈ portSuffixes)
    (hh : -2 ^ 31 ≤ h ∧ h < 2 ^ 31) (hc : -2 ^ 31 ≤ c ∧ c < 2 ^ 31) :
    getPortsEntry (fmtInt h ++ utf8 ":" ++ fmtInt c ++ suffix)
      = some { ContainerPort := c, HostPort := h, Protocol := suffixProtocol suffix } := by
  have hcolon : utf8 ":" = [58] := by decide
  have h58h : 58 ∉ fmtInt h := fun hm => by
    have := fmtInt_bytes h 58 hm
    omega
  have h58c : 58 ∉ fmtInt c := fun hm => by
    have := fmtInt_bytes c 58 hm
    omega
  have h47 : 47 ∉ fmtInt h ++ utf8 ":" ++ fmtInt c := by
    intro hm
    rw [List.mem_append, List.mem_append, hcolon] at hm
    rcases hm with (hm | hm) | hm
    · have := fmtInt_bytes h 47 hm
      omega
    · simp at hm
    · have := fmtInt_bytes c 47 hm
      omega
  rw [getPortsEntry_append _ suffix hs (stringsReplaceAll_suffix _ suffix hs h47)]
  have hsplit : stringsSplit (fmtInt h ++ utf8 ":" ++ fmtInt c) 58 = [fmtInt h, fmtInt c] := by
    rw [hcolon, List.append_assoc, List.singleton_append,
      stringsSplit_append_sep _ _ 58 h58h, stringsSplit_no_sep _ 58 h58c]
  rw [hsplit]
  simp only [strconvParseInt32_fmtInt h hh.1 hh.2, strconvParseInt32_fmtInt c hc.1 hc.2]

theorem getPortsEntry_no_suffix (port : GoString)
    (h : ∀ suffix ∈ portSuffixes, stringsHasSuffix port suffix = false) :
    getPortsEntry port = none := by
  have h1 := h (utf8 "/tcp") (by decide)
  have h2 := h (utf8 "/TCP") (by decide)
  have h3 := h (utf8 "/udp") (by decide)
  have h4 := h (utf8 "/UDP") (by decide)
  simp [getPortsEntry, getPortsProtocol, h1, h2, h3, h4]

/-- C3. For all integers `h` and `c` in the signed 32-bit range, `getPorts`
on a container whose only port string is `<h>:<c>/tcp` or `<h>:<c>/TCP`
returns exactly the entry with container port `c`, host port `h` and protocol
TCP, and with `/udp` or `/UDP` the same entry with protocol UDP; a port string
that ends in none of the four suffixes contributes no entry. `8080:80/tcp`
gives (80, 8080, TCP), `53:53/udp` gives UDP, `not-a-port` gives nothing. The
entries of a container with several port strings are those of the strings
taken one at a time. -/
theorem getPorts_host_container (container : Container) (h c : Int)
    (hh : -2 ^ 31 ≤ h ∧ h < 2 ^ 31) (hc : -2 ^ 31 ≤ c ∧ c < 2 ^ 31) :
    getPorts { container with Ports := [fmtInt h ++ utf8 ":" ++ fmtInt c ++ utf8 "/tcp"] }
        = [{ ContainerPort := c, HostPort := h, Protocol := Protocol.TCP }]
    ∧ getPorts { container with Ports := [fmtInt h ++ utf8 ":" ++ fmtInt c ++ utf8 "/TCP"] }
        = [{ ContainerPort := c, HostPort := h, Protocol := Protocol.TCP }]
    ∧ getPorts { container with Ports := [fmtInt h ++ utf8 ":" ++ fmtInt c ++ utf8 "/udp"] }
        = [{ ContainerPort := c, HostPort := h, Protocol := Protocol.UDP }]
    ∧ getPorts { container with Ports := [fmtInt h ++ utf8 ":" ++ fmtInt c ++ utf8 "/UDP"] }
        = [{ ContainerPort := c, HostPort := h, Protocol := Protocol.UDP }]
    ∧ (∀ port : GoString, (∀ suffix ∈ portSuffixes, stringsHasSuffix port suffix = false) →
        getPorts { container with Ports := [port] } = [])
    ∧ getPorts { container with Ports := [utf8 "8080:80/tcp"] }
        = [{ ContainerPort := 80, HostPort := 8080, Protocol := Protocol.TCP }]
    ∧ getPorts { container with Ports := [utf8 "53:53/udp"] }
        = [{ ContainerPort := 53, HostPort := 53, Protocol := Protocol.UDP }]
    ∧ getPorts { container with Ports := [utf8 "not-a-port"] } = []
    ∧ (∀ ports : List GoString,
        getPorts { container with Ports := ports }
          = ports.flatMap (fun port => getPorts { container with Ports := [port] })) := by
  refine ⟨?_, ?_, ?_, ?_, ?_, ?_, ?_, ?_, getPorts_flatMap container⟩
  · rw [getPorts_single, getPortsEntry_numeric h c _ (by decide) hh hc]
    rfl
  · rw [getPorts_single, getPortsEntry_numeric h c _ (by decide) hh hc]
    rfl
  · rw [getPorts_single, getPortsEntry_numeric h c _ (by decide) hh hc]
    rfl
  · rw [getPorts_single, getPortsEntry_numeric h c _ (by decide) hh hc]
    rfl
  · intro port hp
    rw [getPorts_single, getPortsEntry_no_suffix port hp]
    rfl
  · rw [getPorts_single]
    decide
  · rw [getPorts_single]
    decide
  · rw [getPorts_single]
    decide

theorem getPorts_host_container_witness :
    (-2 ^ 31 ≤ (8080 : Int) ∧ (8080 : Int) < 2 ^ 31) ∧ (-2 ^ 31 ≤ (80 : Int) ∧ (80 : Int) < 2 ^ 31)
    ∧ getPorts { Ports := [fmtInt 8080 ++ utf8 ":" ++ fmtInt 80 ++ utf8 "/tcp"] }
        = [{ ContainerPort := 80, HostPort := 8080, Protocol := Protocol.TCP }] :=
  ⟨by decide, by decide, (getPorts_host_container {} 8080 80 (by decide) (by decide)).1⟩

/-- C4, counterexample. The port string `1:2:3/tcp` leaves the three fields
`1`, `2`, `3` once its suffix is removed, and `getPorts` still emits an entry
for it (host port 1, container port 2): the source tests `len(parts) < 2`. -/
theorem getPorts_three_fields :
    stringsSplit (utf8 "1:2:3") 58 = [utf8 "1", utf8 "2", utf8 "3"]
    ∧ getPorts { Ports := [utf8 "1:2:3/tcp"] }
        = [{ ContainerPort := 2, HostPort := 1, Protocol := Protocol.TCP }] := by
  decide

/-- C4, amended. A port string yields at most one entry. It yields none when
it ends in none of the four suffixes. When it is `body ++ suffix` for one of
the four suffixes, the suffix text occurring nowhere else (deleting it leaves
`body`), the entries are exactly those with the protocol of the suffix whose
host and container port are the first and second field of `body` split on
`:`, both parsed as signed 32-bit decimal integers: at least two fields are
required, further fields are ignored. The entries of a container are those of
its port strings taken one at a time. -/
theorem getPorts_entry_iff (container : Container) (port : GoString) :
    (getPorts { container with Ports := [port] }).length ≤ 1
    ∧ ((∀ suffix ∈ portSuffixes, stringsHasSuffix port suffix = false) →
        getPorts { container with Ports := [port] } = [])
    ∧ (∀ body suffix : GoString, suffix ∈ portSuffixes → port = body ++ suffix →
        stringsReplaceAll port suffix [] = body →
        ∀ entry : ContainerPort,
          entry ∈ getPorts { container with Ports := [port] } ↔
            ∃ p0 p1 more hostPort containerPort,
              stringsSplit body 58 = p0 :: p1 :: more
              ∧ strconvParseInt32 p0 = some hostPort
              ∧ strconvParseInt32 p1 = some containerPort
              ∧ entry = { ContainerPort := containerPort, HostPort := hostPort,
                          Protocol := suffixProtocol suffix })
    ∧ (∀ ports : List GoString,
        getPorts { container with Ports := ports }
          = ports.flatMap (fun p => getPorts { container with Ports := [p] })) := by
  refine ⟨?_, ?_, ?_, getPorts_flatMap container⟩
  · rw [getPorts_single]
    cases getPortsEntry port <;> simp
  · intro hp
    rw [getPorts_single, getPortsEntry_no_suffix port hp]
    rfl
  · intro body suffix hs hport hrep entry
    subst hport
    rw [getPorts_single, getPortsEntry_append body suffix hs hrep]
    rcases hsplit : stringsSplit body 58 with _ | ⟨p0, _ | ⟨p1, more⟩⟩
    · simp
    · simp
    · cases h0 : strconvParseInt32 p0 with
      | none => simp [h0]
      | some hostPort =>
        cases h1 : strconvParseInt32 p1 with
        | none => simp [h0, h1]
        | some containerPort =>
          simp only [h0, h1, Option.toList, List.mem_singleton]
          constructor
          · intro he
            exact ⟨p0, p1, more, hostPort, containerPort, rfl, h0, h1, he⟩
          · rintro ⟨q0, q1, _, hp', cp', hq, e0, e1, he⟩
            simp only [List.cons.injEq] at hq
            obtain ⟨rfl, rfl, _⟩ := hq
            rw [h0] at e0
            rw [h1] at e1
            cases e0
            cases e1
            exact he

/-! ## Volumes -/

theorem getVolumesStep_eq (Hash : GoString → GoString) (volumes : List Volume)
    (volume : GoString) :
    getVolumesStep Hash volumes volume = appendEntry volumes (specHostPathVolume Hash volume) := by
  unfold getVolumesStep specHostPathVolume
  rcases hs : stringsSplit volume 58 with _ | ⟨p0, _ | ⟨p1, more⟩⟩
  · simp [appendEntry]
  · simp [appendEntry]
  · cases habs : filepathIsAbs p0 <;> simp [appendEntry, habs]

theorem getVolumeMountsStep_eq (Hash : GoString → GoString) (volumeMounts : List VolumeMount)
    (volume : GoString) :
    getVolumeMountsStep Hash volumeMounts volume
      = appendEntry volumeMounts (specHostPathMount Hash volume) := by
  unfold getVolumeMountsStep specHostPathMount
  rcases hs : stringsSplit volume 58 with _ | ⟨p0, _ | ⟨p1, more⟩⟩
  · simp [appendEntry]
  · simp [appendEntry]
  · cases habs : filepathIsAbs p0 <;> simp [appendEntry, habs]

theorem foldl_getVolumesStep (Hash : GoString → GoString) (l : List GoString)
    (acc : List Volume) :
    l.foldl (getVolumesStep Hash) acc = acc ++ l.filterMap (specHostPathVolume Hash) := by
  have h : getVolumesStep Hash
      = fun acc v => appendEntry acc (specHostPathVolume Hash v) := by
    funext acc v
    exact getVolumesStep_eq Hash acc v
  rw [h, foldl_appendEntry]

theorem foldl_getVolumeMountsStep (Hash : GoString → GoString) (l : List GoString)
    (acc : List VolumeMount) :
    l.foldl (getVolumeMountsStep Hash) acc = acc ++ l.filterMap (specHostPathMount Hash) := by
  have h : getVolumeMountsStep Hash
      = fun acc v => appendEntry acc (specHostPathMount Hash v) := by
    funext acc v
    exact getVolumeMountsStep_eq Hash acc v
  rw [h, foldl_appendEntry]

theorem foldl_append_map {α β : Type} (g : α → β) (l : List α) : ∀ acc : List β,
    l.foldl (fun acc a => acc ++ [g a]) acc = acc ++ l.map g := by
  induction l with
  | nil => intro acc; simp
  | cons a l ih => intro acc; rw [List.foldl_cons, ih]; simp

theorem foldl_nested {α β γ : Type} (items : α → List β) (g : β → List γ)
    (step : List γ → β → List γ) (hstep : ∀ (l : List β) (acc : List γ),
      l.foldl step acc = acc ++ l.flatMap g) (cs : List α) : ∀ acc : List γ,
    cs.foldl (fun acc c => (items c).foldl step acc) acc
      = acc ++ (cs.flatMap items).flatMap g := by
  induction cs with
  | nil => intro acc; simp
  | cons c cs ih =>
    intro acc
    rw [List.foldl_cons, ih, hstep]
    simp [List.flatMap_cons, List.flatMap_append]

theorem map_eq_flatMap {α β : Type} (g : α → β) (l : List α) :
    l.map g = l.flatMap (fun a => [g a]) := by
  induction l with
  | nil => rfl
  | cons a l ih => simp [List.flatMap_cons, ih]

theorem getVolumes_eq (Hash : GoString → GoString) (deploymentUnit : DeploymentSyncRequest) :
    getVolumes Hash deploymentUnit
      = (deploymentUnit.Containers.flatMap Container.DataVolumes).filterMap
          (specHostPathVolume Hash)
        ++ (deploymentUnit.Containers.flatMap Container.Tmpfs).map (tmpfsVolume Hash) := by
  unfold getVolumes
  have h1 := foldl_nested Container.DataVolumes (fun v => (specHostPathVolume Hash v).toList)
    (getVolumesStep Hash)
    (fun l acc => by rw [foldl_getVolumesStep, filterMap_eq_flatMap])
    deploymentUnit.Containers []
  have h2 := fun acc => foldl_nested Container.Tmpfs (fun t => [tmpfsVolume Hash t])
    (getVolumesTmpfsStep Hash)
    (fun l acc => by
      have : getVolumesTmpfsStep Hash = fun acc t => acc ++ [tmpfsVolume Hash t] := by
        funext acc t
        rfl
      rw [this, foldl_append_map, map_eq_flatMap])
    deploymentUnit.Containers acc
  simp only [h1, h2, List.nil_append, ← filterMap_eq_flatMap, ← map_eq_flatMap]

theorem getVolumeMounts_eq (Hash : GoString → GoString) (container : Container) :
    getVolumeMounts Hash container
      = container.DataVolumes.filterMap (specHostPathMount Hash)
        ++ container.Tmpfs.map (tmpfsMount Hash) := by
  unfold getVolumeMounts
  have : (fun (volumeMounts : List VolumeMount) (tmpfs : GoString) =>
      volumeMounts ++ [({ Name := Hash tmpfs, MountPath := tmpfs } : VolumeMount)])
      = fun acc t => acc ++ [tmpfsMount Hash t] := rfl
  simp only [this, foldl_append_map, foldl_getVolumeMountsStep, List.nil_append]

/-- C5. `getVolumes` emits, for the data-volume strings of the containers in
order, exactly the host-path volume the specification gives each string
(split on `:`, at least two segments, absolute first segment: one volume
named `Hash` of the first segment with that segment as host path; otherwise
nothing), and `getVolumeMounts` emits for each data-volume string of the
container exactly the matching mount (same name, mounted at the second
segment; otherwise nothing); the tmpfs entries follow. `/data:/app/data`
gives one volume named `Hash "/data"` mounted at `/app/data`,
`relative:/app/data` gives nothing. -/
theorem dataVolume_volume_and_mount (Hash : GoString → GoString)
    (deploymentUnit : DeploymentSyncRequest) (container : Container) :
    getVolumes Hash deploymentUnit
        = (deploymentUnit.Containers.flatMap Container.DataVolumes).filterMap
            (specHostPathVolume Hash)
          ++ (deploymentUnit.Containers.flatMap Container.Tmpfs).map (tmpfsVolume Hash)
    ∧ getVolumeMounts Hash container
        = container.DataVolumes.filterMap (specHostPathMount Hash)
          ++ container.Tmpfs.map (tmpfsMount Hash)
    ∧ getVolumes Hash { Containers := [{ DataVolumes := [utf8 "/data:/app/data"] }] }
        = [{ Name := Hash (utf8 "/data"),
             VolumeSource := { HostPath := some { Path := utf8 "/data" } } }]
    ∧ getVolumeMounts Hash { DataVolumes := [utf8 "/data:/app/data"] }
        = [{ Name := Hash (utf8 "/data"), MountPath := utf8 "/app/data" }]
    ∧ getVolumes Hash { Containers := [{ DataVolumes := [utf8 "relative:/app/data"] }] } = []
    ∧ getVolumeMounts Hash { DataVolumes := [utf8 "relative:/app/data"] } = [] := by
  have s1 : stringsSplit (utf8 "/data:/app/data") 58 = [utf8 "/data", utf8 "/app/data"] := by
    decide
  have s2 : stringsSplit (utf8 "relative:/app/data") 58 = [utf8 "relative", utf8 "/app/data"] := by
    decide
  have a1 : filepathIsAbs (utf8 "/data") = true := by decide
  have a2 : filepathIsAbs (utf8 "relative") = false := by decide
  refine ⟨getVolumes_eq Hash deploymentUnit, getVolumeMounts_eq Hash container, ?_, ?_, ?_, ?_⟩
  · simp [getVolumes_eq, specHostPathVolume, s1, a1]
  · simp [getVolumeMounts_eq, specHostPathMount, s1, a1]
  · simp [getVolumes_eq, specHostPathVolume, s2, a2]
  · simp [getVolumeMounts_eq, specHostPathMount, s2, a2]

theorem specHostPath_names (Hash : GoString → GoString) (volume : GoString) :
    (specHostPathMount Hash volume).map VolumeMount.Name
      = (specHostPathVolume Hash volume).map Volume.Name := by
  unfold specHostPathMount specHostPathVolume
  simp only []
  split <;> rfl

/-- C6. For every hash function and every deployment unit: every name of a
mount of a container of the unit is the name of a volume of the unit, and
every name of a volume of the unit is the name of a mount of one of its
containers; host-path and tmpfs entries alike. -/
theorem volume_mount_names_correlate (Hash : GoString → GoString)
    (deploymentUnit : DeploymentSyncRequest) :
    (∀ c ∈ deploymentUnit.Containers, ∀ m ∈ getVolumeMounts Hash c,
        ∃ v ∈ getVolumes Hash deploymentUnit, v.Name = m.Name)
    ∧ (∀ v ∈ getVolumes Hash deploymentUnit,
        ∃ c ∈ deploymentUnit.Containers, ∃ m ∈ getVolumeMounts Hash c, m.Name = v.Name) := by
  constructor
  · intro c hc m hm
    rw [getVolumeMounts_eq, List.mem_append] at hm
    rw [getVolumes_eq]
    rcases hm with hm | hm
    · obtain ⟨vol, hvol, hspec⟩ := List.mem_filterMap.mp hm
      have hn := specHostPath_names Hash vol
      rw [hspec] at hn
      cases hv : specHostPathVolume Hash vol with
      | none => rw [hv] at hn; simp at hn
      | some v =>
        rw [hv] at hn
        simp only [Option.map_some', Option.some.injEq] at hn
        refine ⟨v, List.mem_append_left _ (List.mem_filterMap.mpr ⟨vol, ?_, hv⟩), hn.symm⟩
        exact List.mem_flatMap.mpr ⟨c, hc, hvol⟩
    · obtain ⟨t, ht, rfl⟩ := List.mem_map.mp hm
      refine ⟨tmpfsVolume Hash t, List.mem_append_right _ (List.mem_map.mpr ⟨t, ?_, rfl⟩), rfl⟩
      exact List.mem_flatMap.mpr ⟨c, hc, ht⟩
  · intro v hv
    rw [getVolumes_eq, List.mem_append] at hv
    rcases hv with hv | hv
    · obtain ⟨vol, hvol, hspec⟩ := List.mem_filterMap.mp hv
      obtain ⟨c, hc, hvc⟩ := List.mem_flatMap.mp hvol
      have hn := specHostPath_names Hash vol
      rw [hspec] at hn
      cases hm : specHostPathMount Hash vol with
      | none => rw [hm] at hn; simp at hn
      | some m =>
        rw [hm] at hn
        simp only [Option.map_some', Option.some.injEq] at hn
        refine ⟨c, hc, m, ?_, hn⟩
        rw [getVolumeMounts_eq]
        exact List.mem_append_left _ (List.mem_filterMap.mpr ⟨vol, hvc, hm⟩)
    · obtain ⟨t, ht, rfl⟩ := List.mem_map.mp hv
      obtain ⟨c, hc, htc⟩ := List.mem_flatMap.mp ht
      refine ⟨c, hc, tmpfsMount Hash t, ?_, rfl⟩
      rw [getVolumeMounts_eq]
      exact List.mem_append_right _ (List.mem_map.mpr ⟨t, htc, rfl⟩)

/-! ## Resources -/

/-- C7. The memory entry of `Limits` is the parsed quantity of the decimal
rendering of `Memory` when `Memory` is non-zero and the parse succeeds, and is
absent otherwise; likewise the memory entry of `Requests` for
`MemoryReservation`. With `Memory = 0` the map `Limits` is nil, with
`MemoryReservation = 0` there is no memory request, and with
`Memory = 536870912` the limit is the quantity parsed from `536870912`. -/
theorem getResources_memory {Q : Type} (ParseQuantity : GoString → Option Q)
    (container : Container) :
    resourceEntry (getResources ParseQuantity container).Limits ResourceName.ResourceMemory
        = (if container.Memory ≠ 0 then ParseQuantity (fmtInt container.Memory) else none)
    ∧ resourceEntry (getResources ParseQuantity container).Requests ResourceName.ResourceMemory
        = (if container.MemoryReservation ≠ 0 then
            ParseQuantity (fmtInt container.MemoryReservation) else none)
    ∧ (container.Memory = 0 → (getResources ParseQuantity container).Limits = none)
    ∧ (container.MemoryReservation = 0 →
        resourceEntry (getResources ParseQuantity container).Requests
          ResourceName.ResourceMemory = none)
    ∧ (container.Memory = 536870912 →
        resourceEntry (getResources ParseQuantity container).Limits ResourceName.ResourceMemory
          = ParseQuantity (utf8 "536870912")) := by
  have key1 : resourceEntry (getResources ParseQuantity container).Limits
      ResourceName.ResourceMemory
        = (if container.Memory ≠ 0 then ParseQuantity (fmtInt container.Memory) else none) := by
    unfold getResources resourceEntry
    by_cases h1 : container.Memory = 0
    · simp [h1]
    · cases e1 : ParseQuantity (fmtInt container.Memory) <;> simp [h1, e1, mapSet, mapGet]
  have key2 : resourceEntry (getResources ParseQuantity container).Requests
      ResourceName.ResourceMemory
        = (if container.MemoryReservation ≠ 0 then
            ParseQuantity (fmtInt container.MemoryReservation) else none) := by
    unfold getResources resourceEntry
    by_cases h2 : container.MemoryReservation = 0 <;>
    by_cases h3 : container.MilliCpuReservation = 0 <;>
    cases e2 : ParseQuantity (fmtInt container.MemoryReservation) <;>
    cases e3 : ParseQuantity (fmtInt container.MilliCpuReservation ++ utf8 "m") <;>
    simp [h2, h3, e2, e3, mapSet, mapGet]
  refine ⟨key1, key2, ?_, ?_, ?_⟩
  · intro h
    simp [getResources, h]
  · intro h
    rw [key2, if_neg (by simp [h])]
  · intro h
    have hfmt : fmtInt 536870912 = utf8 "536870912" := by decide
    rw [key1, h, if_pos (by decide), hfmt]

/-- C8. `getResources` never sets a CPU limit: `Limits` has no CPU entry
and, when present, holds only the memory key. `Requests` has a CPU entry
exactly when `MilliCpuReservation` is a non-zero `n` and the quantity parse of
`<n>m` succeeds, and the entry is that parsed quantity. -/
theorem getResources_cpu {Q : Type} (ParseQuantity : GoString → Option Q)
    (container : Container) :
    resourceEntry (getResources ParseQuantity container).Limits ResourceName.ResourceCPU = none
    ∧ (∀ limits, (getResources ParseQuantity container).Limits = some limits →
        ∀ entry ∈ limits, entry.1 = ResourceName.ResourceMemory)
    ∧ resourceEntry (getResources ParseQuantity container).Requests ResourceName.ResourceCPU
        = (if container.MilliCpuReservation ≠ 0 then
            ParseQuantity (fmtInt container.MilliCpuReservation ++ utf8 "m") else none) := by
  refine ⟨?_, ?_, ?_⟩
  · unfold getResources resourceEntry
    by_cases h1 : container.Memory = 0
    · simp [h1]
    · cases e1 : ParseQuantity (fmtInt container.Memory) <;> simp [h1, e1, mapSet, mapGet]
  · intro limits hl entry he
    unfold getResources at hl
    by_cases h1 : container.Memory = 0
    · simp [h1] at hl
    · cases e1 : ParseQuantity (fmtInt container.Memory) with
      | none => simp [h1, e1] at hl
      | some q =>
        simp [h1, e1, mapSet] at hl
        subst hl
        simp at he
        rw [he]
  · unfold getResources resourceEntry
    by_cases h2 : container.MemoryReservation = 0 <;>
    by_cases h3 : container.MilliCpuReservation = 0 <;>
    cases e2 : ParseQuantity (fmtInt container.MemoryReservation) <;>
    cases e3 : ParseQuantity (fmtInt container.MilliCpuReservation ++ utf8 "m") <;>
    simp [h2, h3, e2, e3, mapSet, mapGet]

/-! ## Affinity -/

theorem affinityBlock_eq {R : Type} (container : Container) (name : GoString)
    (selectorsOf : Iface → List R) (state : List R × Bool) :
    affinityBlock container name selectorsOf state
      = (state.1 ++ ((mapGet container.Labels name).map selectorsOf).getD [],
         state.2 || (mapGet container.Labels name).isSome) := by
  unfold affinityBlock
  cases mapGet container.Labels name <;> simp

theorem getAffinity_isSome (L : LabelNames) (Parse : Iface → List (GoString × GoString))
    (Hash : GoString → GoString) (container : Container) (ns : GoString)
    (hg : isGlobal L container = false) :
    (getAffinity L Parse Hash container ns).isSome
      = (constraintLabels L).any (fun name => (mapGet container.Labels name).isSome) := by
  unfold getAffinity
  simp only [hg, affinityBlock_eq, constraintLabels]
  simp
  split
  · simp_all
  · rename_i h
    symm
    simp only [Option.isSome_some, Bool.or_eq_true, Option.isSome_iff_ne_none, ne_eq]
    tauto

/-- C9. For every container whose global marker label is the string `true`
and every namespace, `getAffinity` returns none, whatever the parser, the
hash, the label names and the other labels of the container are. -/
theorem getAffinity_global (L : LabelNames) (Parse : Iface → List (GoString × GoString))
    (Hash : GoString → GoString) (container : Container) (ns : GoString)
    (hglobal : mapGet container.Labels L.GlobalLabel = some (Iface.str (utf8 "true"))) :
    getAffinity L Parse Hash container ns = none := by
  unfold getAffinity isGlobal
  simp [hglobal]

theorem getAffinity_global_witness :
    mapGet
        ({ Labels := [(sampleLabelNames.HostAffinityLabel, Iface.str (utf8 "rack=r1")),
                      (sampleLabelNames.GlobalLabel, Iface.str (utf8 "true")),
                      (sampleLabelNames.ContainerSoftAntiAffinityLabel,
                        Iface.str (utf8 "app=db"))] } : Container).Labels
        sampleLabelNames.GlobalLabel = some (Iface.str (utf8 "true"))
    ∧ getAffinity sampleLabelNames labelsParse (fun s => s)
        { Labels := [(sampleLabelNames.HostAffinityLabel, Iface.str (utf8 "rack=r1")),
                     (sampleLabelNames.GlobalLabel, Iface.str (utf8 "true")),
                     (sampleLabelNames.ContainerSoftAntiAffinityLabel,
                       Iface.str (utf8 "app=db"))] }
        (utf8 "default") = none :=
  ⟨by decide, getAffinity_global sampleLabelNames labelsParse (fun s => s) _ _ (by decide)⟩

theorem getNodeSelectorExpressions_eq_map (labelMap : List (GoString × GoString))
    (operator : SelectorOperator) :
    getNodeSelectorExpressions labelMap operator = labelMap.map (nodeRequirement operator) :=
  (foldl_append_map (nodeRequirement operator) labelMap []).trans (List.nil_append _)

theorem getLabelSelectorExpressions_eq_map (Hash : GoString → GoString)
    (labelMap : List (GoString × GoString)) (operator : SelectorOperator) :
    getLabelSelectorExpressions Hash labelMap operator
      = labelMap.map (labelRequirement Hash operator) :=
  (foldl_append_map (labelRequirement Hash operator) labelMap []).trans (List.nil_append _)

theorem selectors_eq_parsedPairs {R : Type} (Parse : Iface → List (GoString × GoString))
    (container : Container) (name : GoString) (g : GoString × GoString → R)
    (selectorsOf : Iface → List R) (h : ∀ v, selectorsOf v = (Parse v).map g) :
    ((mapGet container.Labels name).map selectorsOf).getD []
      = (parsedPairs Parse container name).map g := by
  unfold parsedPairs
  cases mapGet container.Labels name <;> simp [h]

theorem parsedPairs_of_absent (Parse : Iface → List (GoString × GoString))
    (container : Container) (name : GoString) (h : mapGet container.Labels name = none) :
    parsedPairs Parse container name = [] := by
  unfold parsedPairs
  rw [h]

theorem getAffinity_none_of_absent (L : LabelNames)
    (Parse : Iface → List (GoString × GoString)) (Hash : GoString → GoString)
    (container : Container) (ns : GoString)
    (h : ∀ name ∈ constraintLabels L, mapGet container.Labels name = none) :
    getAffinity L Parse Hash container ns = none := by
  cases hg : isGlobal L container with
  | true => simp [getAffinity, hg]
  | false =>
    have hs := getAffinity_isSome L Parse Hash container ns hg
    have hany : (constraintLabels L).any
        (fun name => (mapGet container.Labels name).isSome) = false := by
      rw [List.any_eq_false]
      intro name hname
      simp [h name hname]
    rw [hany] at hs
    cases hr : getAffinity L Parse Hash container ns with
    | none => rfl
    | some a => rw [hr] at hs; simp at hs

/-- The four slots of the result of `getAffinity` for a container that is not
global: each holds the one term of its group when the group has a
requirement, and nothing otherwise. -/
theorem getAffinity_slots (L : LabelNames)
    (Parse : Iface → List (GoString × GoString)) (Hash : GoString → GoString)
    (container : Container) (ns : GoString) (hg : isGlobal L container = false) :
    requiredNodeTerms (getAffinity L Parse Hash container ns)
        = oneTerm (fun e => ({ MatchExpressions := e } : NodeSelectorTerm))
            ((parsedPairs Parse container L.HostAffinityLabel).map
                (nodeRequirement SelectorOperator.In)
              ++ (parsedPairs Parse container L.HostAntiAffinityLabel).map
                (nodeRequirement SelectorOperator.NotIn))
    ∧ preferredNodeTerms (getAffinity L Parse Hash container ns)
        = oneTerm
            (fun e => ({ Preference := { MatchExpressions := e } } : PreferredSchedulingTerm))
            ((parsedPairs Parse container L.HostSoftAffinityLabel).map
                (nodeRequirement SelectorOperator.In)
              ++ (parsedPairs Parse container L.HostSoftAntiAffinityLabel).map
                (nodeRequirement SelectorOperator.NotIn))
    ∧ requiredPodTerms (getAffinity L Parse Hash container ns)
        = oneTerm
            (fun e => ({ LabelSelector := some { MatchExpressions := e },
                         Namespaces := [ns],
                         TopologyKey := hostnameTopologyKey } : PodAffinityTerm))
            ((parsedPairs Parse container L.ContainerAffinityLabel).map
                (labelRequirement Hash SelectorOperator.In)
              ++ (parsedPairs Parse container L.ContainerAntiAffinityLabel).map
                (labelRequirement Hash SelectorOperator.NotIn))
    ∧ preferredPodTerms (getAffinity L Parse Hash container ns)
        = oneTerm
            (fun e => ({ PodAffinityTerm :=
                          { LabelSelector := some { MatchExpressions := e },
                            Namespaces := [ns],
                            TopologyKey := hostnameTopologyKey } } : WeightedPodAffinityTerm))
            ((parsedPairs Parse container L.ContainerSoftAffinityLabel).map
                (labelRequirement Hash SelectorOperator.In)
              ++ (parsedPairs Parse container L.ContainerSoftAntiAffinityLabel).map
                (labelRequirement Hash SelectorOperator.NotIn)) := by
  by_cases hall : ∀ name ∈ constraintLabels L, mapGet container.Labels name = none
  · rw [getAffinity_none_of_absent L Parse Hash container ns hall]
    have hp : ∀ name ∈ constraintLabels L, parsedPairs Parse container name = [] :=
      fun name hname => parsedPairs_of_absent Parse container name (hall name hname)
    simp only [constraintLabels, List.mem_cons, List.mem_singleton, List.not_mem_nil,
      or_false, forall_eq_or_imp, forall_eq] at hp
    obtain ⟨h1, h2, h3, h4, h5, h6, h7, h8⟩ := hp
    simp [h1, h2, h3, h4, h5, h6, h7, h8, requiredNodeTerms, preferredNodeTerms,
      requiredPodTerms, preferredPodTerms, oneTerm]
  · have hflag : (false || (mapGet container.Labels L.HostAffinityLabel).isSome ||
        (mapGet container.Labels L.HostAntiAffinityLabel).isSome ||
        (mapGet container.Labels L.HostSoftAffinityLabel).isSome ||
        (mapGet container.Labels L.HostSoftAntiAffinityLabel).isSome ||
        (mapGet container.Labels L.ContainerAffinityLabel).isSome ||
        (mapGet container.Labels L.ContainerAntiAffinityLabel).isSome ||
        (mapGet container.Labels L.ContainerSoftAffinityLabel).isSome ||
        (mapGet container.Labels L.ContainerSoftAntiAffinityLabel).isSome) = true := by
      by_contra hc
      apply hall
      simp only [Bool.false_or, Bool.or_eq_true, not_or, Option.isSome_iff_ne_none, ne_eq,
        not_not] at hc
      simp only [constraintLabels, List.mem_cons, List.mem_singleton, List.not_mem_nil,
        or_false, forall_eq_or_imp, forall_eq]
      tauto
    unfold getAffinity
    simp only [hg, affinityBlock_eq]
    simp only [selectors_eq_parsedPairs Parse container _ (nodeRequirement _) _
        (fun v => getNodeSelectorExpressions_eq_map (Parse v) _),
      selectors_eq_parsedPairs Parse container _ (labelRequirement Hash _) _
        (fun v => getLabelSelectorExpressions_eq_map Hash (Parse v) _)]
    rw [hflag]
    simp only [List.nil_append]
    generalize (parsedPairs Parse container L.HostAffinityLabel).map
        (nodeRequirement SelectorOperator.In)
      ++ (parsedPairs Parse container L.HostAntiAffinityLabel).map
        (nodeRequirement SelectorOperator.NotIn) = e1
    generalize (parsedPairs Parse container L.HostSoftAffinityLabel).map
        (nodeRequirement SelectorOperator.In)
      ++ (parsedPairs Parse container L.HostSoftAntiAffinityLabel).map
        (nodeRequirement SelectorOperator.NotIn) = e2
    generalize (parsedPairs Parse container L.ContainerAffinityLabel).map
        (labelRequirement Hash SelectorOperator.In)
      ++ (parsedPairs Parse container L.ContainerAntiAffinityLabel).map
        (labelRequirement Hash SelectorOperator.NotIn) = e3
    generalize (parsedPairs Parse container L.ContainerSoftAffinityLabel).map
        (labelRequirement Hash SelectorOperator.In)
      ++ (parsedPairs Parse container L.ContainerSoftAntiAffinityLabel).map
        (labelRequirement Hash SelectorOperator.NotIn) = e4
    by_cases c1 : e1.length > 0 <;> by_cases c2 : e2.length > 0 <;>
    by_cases c3 : e3.length > 0 <;> by_cases c4 : e4.length > 0 <;>
    simp [c1, c2, c3, c4, requiredNodeTerms, preferredNodeTerms, requiredPodTerms,
      preferredPodTerms, oneTerm]

theorem parsedPairs_of_present (Parse : Iface → List (GoString × GoString))
    (container : Container) (name : GoString) (value : Iface)
    (h : mapGet container.Labels name = some value) :
    parsedPairs Parse container name = Parse value := by
  unfold parsedPairs
  rw [h]

theorem oneTerm_map_length {R T : Type} (mk : List R → T) (count : T → Nat)
    (hcount : ∀ e, count (mk e) = e.length) (e : List R) :
    (oneTerm mk e).map count = oneTermOf e.length := by
  unfold oneTerm oneTermOf
  split <;> simp [hcount]

theorem oneTerm_flatMap {R T : Type} (mk : List R → T) (expressions : T → List R)
    (hexp : ∀ e, expressions (mk e) = e) (e : List R) :
    (oneTerm mk e).flatMap expressions = e := by
  unfold oneTerm
  split
  · simp [hexp]
  · rename_i h
    have : e = [] := List.eq_nil_of_length_eq_zero (by omega)
    simp [this]

theorem oneTermOf_props (n : Nat) :
    (oneTermOf n).length ≤ 1 ∧ (oneTermOf n ≠ [] ↔ 0 < n) ∧ ∀ k ∈ oneTermOf n, k = n := by
  unfold oneTermOf
  split <;> simp [*]

theorem slotRequirementCounts_getAffinity (L : LabelNames)
    (Parse : Iface → List (GoString × GoString)) (Hash : GoString → GoString)
    (container : Container) (ns : GoString) (hg : isGlobal L container = false) :
    slotRequirementCounts (getAffinity L Parse Hash container ns)
      = [oneTermOf ((parsedPairs Parse container L.HostAffinityLabel).length
            + (parsedPairs Parse container L.HostAntiAffinityLabel).length),
         oneTermOf ((parsedPairs Parse container L.HostSoftAffinityLabel).length
            + (parsedPairs Parse container L.HostSoftAntiAffinityLabel).length),
         oneTermOf ((parsedPairs Parse container L.ContainerAffinityLabel).length
            + (parsedPairs Parse container L.ContainerAntiAffinityLabel).length),
         oneTermOf ((parsedPairs Parse container L.ContainerSoftAffinityLabel).length
            + (parsedPairs Parse container L.ContainerSoftAntiAffinityLabel).length)] := by
  obtain ⟨h1, h2, h3, h4⟩ := getAffinity_slots L Parse Hash container ns hg
  unfold slotRequirementCounts
  have k1 := oneTerm_map_length (fun e => ({ MatchExpressions := e } : NodeSelectorTerm))
    (fun t => t.MatchExpressions.length) (fun _ => rfl)
  have k2 := oneTerm_map_length
    (fun e => ({ Preference := { MatchExpressions := e } } : PreferredSchedulingTerm))
    (fun t => t.Preference.MatchExpressions.length) (fun _ => rfl)
  have k3 := oneTerm_map_length
    (fun e => ({ LabelSelector := some { MatchExpressions := e }, Namespaces := [ns],
                 TopologyKey := hostnameTopologyKey } : PodAffinityTerm))
    (fun t => (podTermExpressions t).length) (fun _ => rfl)
  have k4 := oneTerm_map_length
    (fun e => ({ PodAffinityTerm :=
                  { LabelSelector := some { MatchExpressions := e }, Namespaces := [ns],
                    TopologyKey := hostnameTopologyKey } } : WeightedPodAffinityTerm))
    (fun t => (podTermExpressions t.PodAffinityTerm).length) (fun _ => rfl)
  rw [h1, h2, h3, h4, k1, k2, k3, k4]
  simp only [List.length_append, List.length_map]

/-- C19. For a container that is not global, each of the four slots of the
result of `getAffinity` (hard node, soft node, hard pod, soft pod) holds the
terms `oneTermOf n`, `n` being the number of pairs parsed from the group's
affinity label plus the number parsed from its anti-affinity label: at most
one term, a term exactly when `n > 0`, and that term with `n` requirements. -/
theorem getAffinity_one_term_per_group (L : LabelNames)
    (Parse : Iface → List (GoString × GoString)) (Hash : GoString → GoString)
    (container : Container) (ns : GoString) (hg : isGlobal L container = false) :
    slotRequirementCounts (getAffinity L Parse Hash container ns)
        = [oneTermOf ((parsedPairs Parse container L.HostAffinityLabel).length
              + (parsedPairs Parse container L.HostAntiAffinityLabel).length),
           oneTermOf ((parsedPairs Parse container L.HostSoftAffinityLabel).length
              + (parsedPairs Parse container L.HostSoftAntiAffinityLabel).length),
           oneTermOf ((parsedPairs Parse container L.ContainerAffinityLabel).length
              + (parsedPairs Parse container L.ContainerAntiAffinityLabel).length),
           oneTermOf ((parsedPairs Parse container L.ContainerSoftAffinityLabel).length
              + (parsedPairs Parse container L.ContainerSoftAntiAffinityLabel).length)]
    ∧ (∀ n : Nat,
        (oneTermOf n).length ≤ 1 ∧ (oneTermOf n ≠ [] ↔ 0 < n) ∧ ∀ k ∈ oneTermOf n, k = n) :=
  ⟨slotRequirementCounts_getAffinity L Parse Hash container ns hg, oneTermOf_props⟩

theorem getAffinity_one_term_per_group_witness :
    isGlobal sampleLabelNames
        { Labels := [(sampleLabelNames.HostAffinityLabel, Iface.str (utf8 "rack=r1")),
                     (sampleLabelNames.HostAntiAffinityLabel,
                       Iface.str (utf8 "zone=z1,disk=hdd"))] } = false
    ∧ slotRequirementCounts
        (getAffinity sampleLabelNames labelsParse (fun s => s)
          { Labels := [(sampleLabelNames.HostAffinityLabel, Iface.str (utf8 "rack=r1")),
                       (sampleLabelNames.HostAntiAffinityLabel,
                         Iface.str (utf8 "zone=z1,disk=hdd"))] }
          (utf8 "default"))
      = [[3], [], [], []] := by
  refine ⟨by decide, ?_⟩
  rw [(getAffinity_one_term_per_group sampleLabelNames labelsParse (fun s => s)
      { Labels := [(sampleLabelNames.HostAffinityLabel, Iface.str (utf8 "rack=r1")),
                   (sampleLabelNames.HostAntiAffinityLabel,
                     Iface.str (utf8 "zone=z1,disk=hdd"))] }
      (utf8 "default") (by decide)).1]
  decide

/-- C20. Every preferred node scheduling term and every preferred weighted
pod-affinity term in the result of `getAffinity` has weight 0, for every
container and namespace. -/
theorem getAffinity_preferred_weight_zero (L : LabelNames)
    (Parse : Iface → List (GoString × GoString)) (Hash : GoString → GoString)
    (container : Container) (ns : GoString) :
    (∀ t ∈ preferredNodeTerms (getAffinity L Parse Hash container ns), t.Weight = 0)
    ∧ (∀ t ∈ preferredPodTerms (getAffinity L Parse Hash container ns), t.Weight = 0) := by
  cases hg : isGlobal L container with
  | true =>
    have : getAffinity L Parse Hash container ns = none := by simp [getAffinity, hg]
    rw [this]
    simp [preferredNodeTerms, preferredPodTerms]
  | false =>
    obtain ⟨_, h2, _, h4⟩ := getAffinity_slots L Parse Hash container ns hg
    rw [h2, h4]
    constructor
    · intro t ht
      unfold oneTerm at ht
      split at ht
      · rw [List.mem_singleton] at ht
        rw [ht]
      · simp at ht
    · intro t ht
      unfold oneTerm at ht
      split at ht
      · rw [List.mem_singleton] at ht
        rw [ht]
      · simp at ht

/-- C18. `getNodeSelectorExpressions` yields one requirement per pair, with
the literal key, the operator given and the literal value as only value;
`getLabelSelectorExpressions` yields one requirement per pair, with `Hash` of
the key, the operator given and `Hash` of the value as only value. In the
result of `getAffinity` for a container that is not global, the requirements
of each of the four slots are those of the group's affinity label built with
`In`, followed by those of its anti-affinity label built with `NotIn`. -/
theorem selector_expressions (L : LabelNames)
    (Parse : Iface → List (GoString × GoString)) (Hash : GoString → GoString)
    (container : Container) (ns : GoString) (hg : isGlobal L container = false) :
    (∀ (labelMap : List (GoString × GoString)) (operator : SelectorOperator),
        getNodeSelectorExpressions labelMap operator
          = labelMap.map (fun kv => { Key := kv.1, Operator := operator, Values := [kv.2] }))
    ∧ (∀ (labelMap : List (GoString × GoString)) (operator : SelectorOperator),
        getLabelSelectorExpressions Hash labelMap operator
          = labelMap.map
              (fun kv => { Key := Hash kv.1, Operator := operator, Values := [Hash kv.2] }))
    ∧ (requiredNodeTerms (getAffinity L Parse Hash container ns)).flatMap
          (fun t => t.MatchExpressions)
        = getNodeSelectorExpressions (parsedPairs Parse container L.HostAffinityLabel)
            SelectorOperator.In
          ++ getNodeSelectorExpressions (parsedPairs Parse container L.HostAntiAffinityLabel)
            SelectorOperator.NotIn
    ∧ (preferredNodeTerms (getAffinity L Parse Hash container ns)).flatMap
          (fun t => t.Preference.MatchExpressions)
        = getNodeSelectorExpressions (parsedPairs Parse container L.HostSoftAffinityLabel)
            SelectorOperator.In
          ++ getNodeSelectorExpressions
            (parsedPairs Parse container L.HostSoftAntiAffinityLabel) SelectorOperator.NotIn
    ∧ (requiredPodTerms (getAffinity L Parse Hash container ns)).flatMap podTermExpressions
        = getLabelSelectorExpressions Hash
            (parsedPairs Parse container L.ContainerAffinityLabel) SelectorOperator.In
          ++ getLabelSelectorExpressions Hash
            (parsedPairs Parse container L.ContainerAntiAffinityLabel) SelectorOperator.NotIn
    ∧ (preferredPodTerms (getAffinity L Parse Hash container ns)).flatMap
          (fun t => podTermExpressions t.PodAffinityTerm)
        = getLabelSelectorExpressions Hash
            (parsedPairs Parse container L.ContainerSoftAffinityLabel) SelectorOperator.In
          ++ getLabelSelectorExpressions Hash
            (parsedPairs Parse container L.ContainerSoftAntiAffinityLabel)
            SelectorOperator.NotIn := by
  obtain ⟨h1, h2, h3, h4⟩ := getAffinity_slots L Parse Hash container ns hg
  refine ⟨fun m op => getNodeSelectorExpressions_eq_map m op,
    fun m op => getLabelSelectorExpressions_eq_map Hash m op, ?_, ?_, ?_, ?_⟩
  · rw [h1, oneTerm_flatMap _ _ (fun _ => rfl)]
    simp only [getNodeSelectorExpressions_eq_map]
  · rw [h2, oneTerm_flatMap _ _ (fun _ => rfl)]
    simp only [getNodeSelectorExpressions_eq_map]
  · rw [h3, oneTerm_flatMap _ _ (fun _ => rfl)]
    simp only [getLabelSelectorExpressions_eq_map]
  · rw [h4, oneTerm_flatMap _ _ (fun _ => rfl)]
    simp only [getLabelSelectorExpressions_eq_map]

theorem selector_expressions_witness :
    isGlobal sampleLabelNames
        { Labels := [(sampleLabelNames.ContainerAntiAffinityLabel,
            Iface.str (utf8 "app=db"))] } = false
    ∧ (requiredPodTerms
          (getAffinity sampleLabelNames labelsParse (fun s => 104 :: s)
            { Labels := [(sampleLabelNames.ContainerAntiAffinityLabel,
                Iface.str (utf8 "app=db"))] }
            (utf8 "default"))).flatMap podTermExpressions
        = getLabelSelectorExpressions (fun s => 104 :: s)
            (parsedPairs labelsParse
              { Labels := [(sampleLabelNames.ContainerAntiAffinityLabel,
                  Iface.str (utf8 "app=db"))] }
              sampleLabelNames.ContainerAffinityLabel) SelectorOperator.In
          ++ getLabelSelectorExpressions (fun s => 104 :: s)
            (parsedPairs labelsParse
              { Labels := [(sampleLabelNames.ContainerAntiAffinityLabel,
                  Iface.str (utf8 "app=db"))] }
              sampleLabelNames.ContainerAntiAffinityLabel) SelectorOperator.NotIn :=
  ⟨by decide,
    (selector_expressions sampleLabelNames labelsParse (fun s => 104 :: s)
      { Labels := [(sampleLabelNames.ContainerAntiAffinityLabel, Iface.str (utf8 "app=db"))] }
      (utf8 "default") (by decide)).2.2.2.2.1⟩

/-- C11. For each of the eight constraint categories: when a container that
is not global carries that constraint label alone among the eight constraint
labels (whose names are distinct), and the label's value parses to `n > 0`
pairs, `getAffinity` returns an affinity object in which the slot of the
category (required node selector terms for the hard node labels, preferred
node scheduling terms for the soft node labels, required pod-affinity terms
for the hard container labels, preferred weighted pod-affinity terms for the
soft container labels) holds exactly one term, that term has exactly `n`
requirements, and the other three slots are empty. -/
theorem getAffinity_single_category (L : LabelNames)
    (Parse : Iface → List (GoString × GoString)) (Hash : GoString → GoString)
    (container : Container) (ns : GoString) (name : GoString) (value : Iface)
    (hdistinct : (constraintLabels L).Nodup)
    (hg : isGlobal L container = false)
    (hname : name ∈ constraintLabels L)
    (hpresent : mapGet container.Labels name = some value)
    (halone : ∀ other ∈ constraintLabels L, other ≠ name →
      mapGet container.Labels other = none)
    (hpairs : 0 < (Parse value).length) :
    getAffinity L Parse Hash container ns ≠ none
    ∧ (name = L.HostAffinityLabel ∨ name = L.HostAntiAffinityLabel →
        slotRequirementCounts (getAffinity L Parse Hash container ns)
          = [[(Parse value).length], [], [], []])
    ∧ (name = L.HostSoftAffinityLabel ∨ name = L.HostSoftAntiAffinityLabel →
        slotRequirementCounts (getAffinity L Parse Hash container ns)
          = [[], [(Parse value).length], [], []])
    ∧ (name = L.ContainerAffinityLabel ∨ name = L.ContainerAntiAffinityLabel →
        slotRequirementCounts (getAffinity L Parse Hash container ns)
          = [[], [], [(Parse value).length], []])
    ∧ (name = L.ContainerSoftAffinityLabel ∨ name = L.ContainerSoftAntiAffinityLabel →
        slotRequirementCounts (getAffinity L Parse Hash container ns)
          = [[], [], [], [(Parse value).length]]) := by
  have hsome : getAffinity L Parse Hash container ns ≠ none := by
    rw [← Option.isSome_iff_ne_none, getAffinity_isSome L Parse Hash container ns hg,
      List.any_eq_true]
    exact ⟨name, hname, by simp [hpresent]⟩
  have hlen : ∀ X ∈ constraintLabels L,
      (parsedPairs Parse container X).length = if X = name then (Parse value).length else 0 := by
    intro X hX
    by_cases hXn : X = name
    · rw [if_pos hXn, hXn, parsedPairs_of_present Parse container name value hpresent]
    · rw [if_neg hXn, parsedPairs_of_absent Parse container X (halone X hX hXn)]
      rfl
  have hcounts := slotRequirementCounts_getAffinity L Parse Hash container ns hg
  rw [hlen _ (by simp [constraintLabels]), hlen _ (by simp [constraintLabels]),
    hlen _ (by simp [constraintLabels]), hlen _ (by simp [constraintLabels]),
    hlen _ (by simp [constraintLabels]), hlen _ (by simp [constraintLabels]),
    hlen _ (by simp [constraintLabels]), hlen _ (by simp [constraintLabels])] at hcounts
  simp only [constraintLabels, List.nodup_cons, List.mem_cons, List.mem_singleton,
    List.not_mem_nil, or_false, not_or, List.nodup_nil, and_true, not_false_eq_true] at hdistinct
  obtain ⟨⟨d01, d02, d03, d04, d05, d06, d07⟩, ⟨d12, d13, d14, d15, d16, d17⟩, ⟨d23, d24, d25, d26, d27⟩, ⟨d34, d35, d36, d37⟩, ⟨d45, d46, d47⟩, ⟨d56, d57⟩, d67⟩ := hdistinct
  refine ⟨hsome, ?_, ?_, ?_, ?_⟩ <;> rintro (rfl | rfl) <;> rw [hcounts] <;>
    simp [oneTermOf, hpairs, d01, d02, d03, d04, d05, d06, d07, d12, d13, d14, d15, d16, d17, d23, d24, d25, d26, d27, d34, d35, d36, d37, d45, d46, d47, d56, d57, d67, Ne.symm d01, Ne.symm d02, Ne.symm d03, Ne.symm d04, Ne.symm d05, Ne.symm d06, Ne.symm d07, Ne.symm d12, Ne.symm d13, Ne.symm d14, Ne.symm d15, Ne.symm d16, Ne.symm d17, Ne.symm d23, Ne.symm d24, Ne.symm d25, Ne.symm d26, Ne.symm d27, Ne.symm d34, Ne.symm d35, Ne.symm d36, Ne.symm d37, Ne.symm d45, Ne.symm d46, Ne.symm d47, Ne.symm d56, Ne.symm d57, Ne.symm d67]

theorem getAffinity_single_category_witness :
    isGlobal sampleLabelNames
        { Labels := [(sampleLabelNames.HostSoftAntiAffinityLabel,
            Iface.str (utf8 "rack=r1,zone=z2"))] } = false
    ∧ 0 < (labelsParse (Iface.str (utf8 "rack=r1,zone=z2"))).length
    ∧ slotRequirementCounts
        (getAffinity sampleLabelNames labelsParse (fun s => s)
          { Labels := [(sampleLabelNames.HostSoftAntiAffinityLabel,
              Iface.str (utf8 "rack=r1,zone=z2"))] }
          (utf8 "default"))
      = [[], [(labelsParse (Iface.str (utf8 "rack=r1,zone=z2"))).length], [], []] :=
  ⟨by decide, by decide,
    (getAffinity_single_category sampleLabelNames labelsParse (fun s => s)
      { Labels := [(sampleLabelNames.HostSoftAntiAffinityLabel,
          Iface.str (utf8 "rack=r1,zone=z2"))] }
      (utf8 "default") sampleLabelNames.HostSoftAntiAffinityLabel
      (Iface.str (utf8 "rack=r1,zone=z2"))
      (by decide) (by decide) (by decide) (by decide) (by decide) (by decide)).2.2.1
      (Or.inr rfl)⟩

/-! ## Host aliases -/

theorem cutAt_append (host ip : GoString) (sep : Nat) (h : sep ∉ host) :
    cutAt (host ++ sep :: ip) sep = some (host, ip) := by
  induction host with
  | nil => simp [cutAt]
  | cons b rest ih =>
    have hb : b ≠ sep := fun e => h (by simp [e])
    have hr : sep ∉ rest := fun e => h (by simp [e])
    rw [List.cons_append, cutAt, if_neg hb, ih hr]

theorem cutAt_none (s : GoString) (sep : Nat) (h : sep ∉ s) : cutAt s sep = none := by
  induction s with
  | nil => rfl
  | cons b rest ih =>
    have hb : b ≠ sep := fun e => h (by simp [e])
    have hr : sep ∉ rest := fun e => h (by simp [e])
    rw [cutAt, if_neg hb, ih hr]

theorem getHostAliases_eq_filterMap (container : Container) :
    getHostAliases container = container.ExtraHosts.filterMap getHostAliasesEntry := by
  unfold getHostAliases
  rw [foldl_appendEntry getHostAliasesEntry]
  simp

theorem getHostAliases_single (container : Container) (extraHost : GoString) :
    getHostAliases { container with ExtraHosts := [extraHost] }
      = (getHostAliasesEntry extraHost).toList := by
  rw [getHostAliases_eq_filterMap]
  cases h : getHostAliasesEntry extraHost <;> simp [List.filterMap_cons, h]

/-- C15. `getHostAliases` handles the extra-host strings one at a time, in
input order. A string with a `:` gives one alias whose single hostname is the
text before the first `:` and whose IP is all the text after it, further
colons included; a string without `:` gives nothing. -/
theorem getHostAliases_entries (container : Container) :
    (∀ extraHosts : List GoString,
        getHostAliases { container with ExtraHosts := extraHosts }
          = extraHosts.flatMap
              (fun extraHost => getHostAliases { container with ExtraHosts := [extraHost] }))
    ∧ (∀ host ip : GoString, 58 ∉ host →
        getHostAliases { container with ExtraHosts := [host ++ utf8 ":" ++ ip] }
          = [{ IP := ip, Hostnames := [host] }])
    ∧ (∀ extraHost : GoString, 58 ∉ extraHost →
        getHostAliases { container with ExtraHosts := [extraHost] } = [])
    ∧ getHostAliases
          { container with
            ExtraHosts := [utf8 "db:10.0.0.5", utf8 "no-colon", utf8 "v6:fe80::1"] }
        = [{ IP := utf8 "10.0.0.5", Hostnames := [utf8 "db"] },
           { IP := utf8 "fe80::1", Hostnames := [utf8 "v6"] }] := by
  have hcolon : utf8 ":" = [58] := by decide
  refine ⟨?_, ?_, ?_, ?_⟩
  · intro extraHosts
    rw [getHostAliases_eq_filterMap, filterMap_eq_flatMap]
    congr 1
  · intro host ip hh
    rw [getHostAliases_single, hcolon, List.append_assoc, List.singleton_append]
    simp [getHostAliasesEntry, stringsSplitN2, cutAt_append host ip 58 hh]
  · intro extraHost hh
    rw [getHostAliases_single]
    simp [getHostAliasesEntry, stringsSplitN2, cutAt_none extraHost 58 hh]
  · rw [getHostAliases_eq_filterMap]
    show List.filterMap getHostAliasesEntry
        [utf8 "db:10.0.0.5", utf8 "no-colon", utf8 "v6:fe80::1"] = _
    decide

/-! ## Pod labels -/

theorem mapSet_fresh {K V : Type} [DecidableEq K] (m : List (K × V)) (k : K) (v : V)
    (h : k ∉ m.map Prod.fst) : mapSet m k v = m ++ [(k, v)] := by
  induction m with
  | nil => rfl
  | cons kv rest ih =>
    obtain ⟨k0, v0⟩ := kv
    have h0 : k0 ≠ k := fun e => h (by simp [e])
    have hr : k ∉ rest.map Prod.fst := fun e => h (by simp [e])
    simp [mapSet, h0, ih hr]

theorem foldl_mapSet_fresh {α K V : Type} [DecidableEq K] (key : α → K) (val : α → V)
    (l : List α) : ∀ m : List (K × V),
    (l.map key).Nodup → (∀ a ∈ l, key a ∉ m.map Prod.fst) →
    l.foldl (fun m a => mapSet m (key a) (val a)) m = m ++ l.map (fun a => (key a, val a)) := by
  induction l with
  | nil => intro m _ _; simp
  | cons a l ih =>
    intro m hnd hfresh
    rw [List.map_cons, List.nodup_cons] at hnd
    rw [List.foldl_cons, mapSet_fresh m (key a) (val a) (hfresh a (by simp)), ih _ hnd.2]
    · simp
    · intro b hb hmem
      rw [List.map_append, List.mem_append] at hmem
      rcases hmem with hmem | hmem
      · exact hfresh b (by simp [hb]) hmem
      · simp at hmem
        exact hnd.1 (hmem ▸ List.mem_map_of_mem key hb)

/-- C16. For a deployment unit with at least one container, when the keys of
the primary container's labels are pairwise different (they are the keys of a
map), the two reserved label names differ, `Hash` is injective on those keys
and yields neither reserved name on them, the map built by `getLabels` is the
revision entry, the deployment-unit-id entry, and one entry from `Hash k` to
`Hash` of the string form of `v` for each label `(k, v)` of the primary
container, and nothing else. The string form of a string is the string, that
of another value its `fmt.Sprint` rendering. -/
theorem getLabels_entries (L : LabelNames) (Hash : GoString → GoString)
    (deploymentUnit : DeploymentSyncRequest) (c : Container) (rest : List Container)
    (hc : deploymentUnit.Containers = c :: rest)
    (hreserved : L.RevisionLabel ≠ L.DeploymentUuidLabel)
    (hkeys : (c.Labels.map Prod.fst).Nodup)
    (hinj : ∀ kv ∈ c.Labels, ∀ kv' ∈ c.Labels, Hash kv.1 = Hash kv'.1 → kv.1 = kv'.1)
    (hfresh : ∀ kv ∈ c.Labels,
      Hash kv.1 ≠ L.RevisionLabel ∧ Hash kv.1 ≠ L.DeploymentUuidLabel) :
    getLabels L Hash deploymentUnit
      = some ([(L.RevisionLabel, deploymentUnit.Revision),
               (L.DeploymentUuidLabel, deploymentUnit.DeploymentUnitUuid)]
              ++ c.Labels.map (fun kv =>
                  (Hash kv.1,
                   Hash (match kv.2 with
                         | Iface.str text => text
                         | Iface.other rendering => rendering)))) := by
  have hlit : mapSet (mapSet ([] : List (GoString × GoString)) L.RevisionLabel
        deploymentUnit.Revision) L.DeploymentUuidLabel deploymentUnit.DeploymentUnitUuid
      = [(L.RevisionLabel, deploymentUnit.Revision),
         (L.DeploymentUuidLabel, deploymentUnit.DeploymentUnitUuid)] := by
    simp [mapSet, hreserved]
  have hnd : (c.Labels.map (fun kv => Hash kv.1)).Nodup := by
    have := List.Nodup.map_on (f := Hash) (l := c.Labels.map Prod.fst) (by
      intro x hx y hy hxy
      obtain ⟨kv, hkv, rfl⟩ := List.mem_map.mp hx
      obtain ⟨kv', hkv', rfl⟩ := List.mem_map.mp hy
      exact hinj kv hkv kv' hkv' hxy) hkeys
    simpa [List.map_map] using this
  have hform : c.Labels.map (fun kv => (Hash kv.1, Hash (fmtSprint kv.2)))
      = c.Labels.map (fun kv =>
          (Hash kv.1,
           Hash (match kv.2 with
                 | Iface.str text => text
                 | Iface.other rendering => rendering))) := by
    apply List.map_congr_left
    rintro ⟨k, v⟩ _
    cases v <;> rfl
  rw [← hform]
  unfold getLabels primary
  rw [hc, hlit]
  simp only [List.head?_cons]
  rw [foldl_mapSet_fresh (fun kv : GoString × Iface => Hash kv.1)
    (fun kv => Hash (fmtSprint kv.2)) c.Labels _ hnd]
  intro kv hkv
  have := hfresh kv hkv
  simp [this.1, this.2]

theorem getLabels_entries_witness :
    getLabels sampleLabelNames (fun s => 104 :: s)
        { DeploymentUnitUuid := utf8 "abcdef1234567890", Revision := utf8 "7",
          Containers := [{ Name := utf8 "Web",
                           Labels := [(utf8 "tier", Iface.str (utf8 "front")),
                                      (utf8 "replicas", Iface.other (utf8 "3"))] }] }
      = some [(utf8 "io.rancher.revision", utf8 "7"),
              (utf8 "io.rancher.deployment.uuid", utf8 "abcdef1234567890"),
              (utf8 "htier", utf8 "hfront"),
              (utf8 "hreplicas", utf8 "h3")] :=
  (getLabels_entries sampleLabelNames (fun s => 104 :: s)
    { DeploymentUnitUuid := utf8 "abcdef1234567890", Revision := utf8 "7",
      Containers := [{ Name := utf8 "Web",
                       Labels := [(utf8 "tier", Iface.str (utf8 "front")),
                                  (utf8 "replicas", Iface.other (utf8 "3"))] }] }
    { Name := utf8 "Web",
      Labels := [(utf8 "tier", Iface.str (utf8 "front")),
                 (utf8 "replicas", Iface.other (utf8 "3"))] }
    [] rfl (by decide) (by decide) (by decide) (by decide)).trans (by decide)

/-! ## Reconciler -/

theorem allContainersReady_eq_all (statuses : List ContainerStatus) :
    allContainersReady statuses = statuses.all (fun s => s.Ready) := by
  induction statuses with
  | nil => rfl
  | cons s rest ih =>
    unfold allContainersReady
    cases hs : s.Ready <;> simp [hs, ih]

theorem waitLoop_cons_not_ready (o : Option Pod) (later : List (Option Pod))
    (h : observationReady o = false) : waitLoop (o :: later) = waitLoop later := by
  cases o with
  | none => rfl
  | some p =>
    simp only [observationReady] at h
    rw [← allContainersReady_eq_all] at h
    rw [waitLoop]
    by_cases hn : p.Spec.NodeName = []
    · simp [hn]
    · simp only [hn, ne_eq, not_false_eq_true, decide_True, Bool.true_and] at h
      simp [hn, h]

theorem waitLoop_cons_ready (p : Pod) (later : List (Option Pod))
    (h : observationReady (some p) = true) : waitLoop (some p :: later) = some (p, none) := by
  simp only [observationReady] at h
  rw [← allContainersReady_eq_all, Bool.and_eq_true, decide_eq_true_eq] at h
  rw [waitLoop]
  simp [h.1, h.2]

theorem waitLoop_eq_some_iff (polled : List (Option Pod)) (p : Pod) (e : Option GoString) :
    waitLoop polled = some (p, e) ↔
      e = none ∧ ∃ before after, polled = before ++ some p :: after
        ∧ observationReady (some p) = true ∧ ∀ o ∈ before, observationReady o = false := by
  induction polled with
  | nil => simp [waitLoop]
  | cons o later ih =>
    cases ho : observationReady o with
    | false =>
      rw [waitLoop_cons_not_ready o later ho, ih]
      constructor
      · rintro ⟨he, before, after, hpol, hp, hbefore⟩
        refine ⟨he, o :: before, after, by rw [hpol]; rfl, hp, ?_⟩
        intro o' ho'
        rcases List.mem_cons.mp ho' with rfl | hmem
        · exact ho
        · exact hbefore o' hmem
      · rintro ⟨he, before, after, hpol, hp, hbefore⟩
        cases before with
        | nil =>
          simp only [List.nil_append, List.cons.injEq] at hpol
          rw [hpol.1, hp] at ho
          exact absurd ho (by simp)
        | cons b before' =>
          simp only [List.cons_append, List.cons.injEq] at hpol
          exact ⟨he, before', after, hpol.2, hp,
            fun o' ho' => hbefore o' (List.mem_cons_of_mem _ ho')⟩
    | true =>
      cases o with
      | none => simp [observationReady] at ho
      | some q =>
        rw [waitLoop_cons_ready q later ho]
        constructor
        · intro h
          simp only [Option.some.injEq, Prod.mk.injEq] at h
          obtain ⟨rfl, rfl⟩ := h
          exact ⟨rfl, [], later, rfl, ho, by simp⟩
        · rintro ⟨he, before, after, hpol, hp, hbefore⟩
          cases before with
          | nil =>
            simp only [List.nil_append, List.cons.injEq, Option.some.injEq] at hpol
            rw [hpol.1, he]
          | cons b before' =>
            simp only [List.cons_append, List.cons.injEq] at hpol
            have := hbefore b (by simp)
            rw [← hpol.1, ho] at this
            exact absurd this (by simp)

theorem mapIndex_eq (m : List (GoString × GoString)) (k : GoString) :
    mapIndex m k = (mapGet m k).getD [] := by
  unfold mapIndex
  cases mapGet m k <;> rfl

/-- C12. The part of `reconcilePod` before the wait loop makes at most one
call on the cluster client, fixed by the first observation alone. The desired
revision is the revision label of the desired pod, the empty string when it
has none. Create of the desired pod and no delete when the pod is absent;
delete of the pod's name and no create when it is present with a revision
label that differs from the desired revision; no call when it is present with
the desired revision (or with no revision label). The calls depend neither on
the later observations nor on what the client answers. -/
theorem reconcilePod_first_phase (L : LabelNames) (clientset : Clientset) (pod : Pod)
    (first : Option Pod) (polled : List (Option Pod)) :
    (reconcilePod L clientset pod first polled).ops.length ≤ 1
    ∧ (first = none →
        (reconcilePod L clientset pod first polled).ops = [ClusterOp.create pod])
    ∧ (∀ existingPod existingRevision, first = some existingPod →
        podRevision L existingPod = some existingRevision →
        existingRevision ≠ (podRevision L pod).getD [] →
        (reconcilePod L clientset pod first polled).ops = [ClusterOp.delete pod.Name])
    ∧ (∀ existingPod, first = some existingPod →
        podRevision L existingPod = some ((podRevision L pod).getD []) →
        (reconcilePod L clientset pod first polled).ops = [])
    ∧ (∀ existingPod, first = some existingPod → podRevision L existingPod = none →
        (reconcilePod L clientset pod first polled).ops = [])
    ∧ (∀ (clientset' : Clientset) (polled' : List (Option Pod)),
        (reconcilePod L clientset' pod first polled').ops
          = (reconcilePod L clientset pod first polled).ops) := by
  have hrev : (podRevision L pod).getD [] = mapIndex pod.Labels L.RevisionLabel :=
    (mapIndex_eq pod.Labels L.RevisionLabel).symm
  rw [hrev]
  refine ⟨?_, ?_, ?_, ?_, ?_, ?_⟩
  · unfold reconcilePod reconcileFirstPhase
    cases first with
    | none => simp
    | some existingPod =>
      cases hr : mapGet existingPod.Labels L.RevisionLabel with
      | none => simp [hr]
      | some r =>
        by_cases h : mapIndex pod.Labels L.RevisionLabel = r <;> simp [hr, h]
  · intro h
    simp [reconcilePod, reconcileFirstPhase, h]
  · intro existingPod r h hr hne
    unfold podRevision at hr
    simp [reconcilePod, reconcileFirstPhase, h, hr, Ne.symm hne]
  · intro existingPod h hr
    unfold podRevision at hr
    simp [reconcilePod, reconcileFirstPhase, h, hr]
  · intro existingPod h hr
    unfold podRevision at hr
    simp [reconcilePod, reconcileFirstPhase, h, hr]
  · intro clientset' polled'
    unfold reconcilePod reconcileFirstPhase
    cases first with
    | none => simp
    | some existingPod =>
      cases hr : mapGet existingPod.Labels L.RevisionLabel with
      | none => simp [hr]
      | some r =>
        by_cases h : mapIndex pod.Labels L.RevisionLabel = r <;> simp [hr, h]

theorem reconcilePod_first_phase_witness :
    podRevision sampleLabelNames sampleDesiredPod = some (utf8 "2")
    ∧ (reconcilePod sampleLabelNames sampleClientset sampleDesiredPod none []).ops
        = [ClusterOp.create sampleDesiredPod]
    ∧ podRevision sampleLabelNames sampleStalePod = some (utf8 "1")
    ∧ (reconcilePod sampleLabelNames sampleClientset sampleDesiredPod
          (some sampleStalePod) []).ops
        = [ClusterOp.delete (utf8 "web-abcdef12")]
    ∧ podRevision sampleLabelNames sampleCurrentPod = some (utf8 "2")
    ∧ (reconcilePod sampleLabelNames sampleClientset sampleDesiredPod
          (some sampleCurrentPod) []).ops
        = [] :=
  ⟨by decide,
    (reconcilePod_first_phase sampleLabelNames sampleClientset sampleDesiredPod none []).2.1 rfl,
    by decide,
    (reconcilePod_first_phase sampleLabelNames sampleClientset sampleDesiredPod
      (some sampleStalePod) []).2.2.1 sampleStalePod (utf8 "1") rfl (by decide) (by decide),
    by decide,
    (reconcilePod_first_phase sampleLabelNames sampleClientset sampleDesiredPod
      (some sampleCurrentPod) []).2.2.2.1 sampleCurrentPod rfl (by decide)⟩

/-- C13. With the watch client as the sequence of its answers, `reconcilePod`
returns a pod exactly when that pod is the first polled observation that is
found, has a non-empty node name and has every container status ready: the
pod is returned unchanged, with a nil error, and no earlier polled observation
is ready. An observation that is absent, unscheduled or has a container
status that is not ready is passed over: the loop goes on with the next
poll. -/
theorem reconcilePod_returns_first_ready (L : LabelNames) (clientset : Clientset) (pod : Pod)
    (first : Option Pod) (polled : List (Option Pod)) :
    (∀ (p : Pod) (e : Option GoString),
        (reconcilePod L clientset pod first polled).returned = some (p, e) ↔
          e = none ∧ ∃ before after, polled = before ++ some p :: after
            ∧ observationReady (some p) = true ∧ ∀ o ∈ before, observationReady o = false)
    ∧ (∀ (o : Option Pod) (later : List (Option Pod)), observationReady o = false →
        (reconcilePod L clientset pod first (o :: later)).returned
          = (reconcilePod L clientset pod first later).returned)
    ∧ observationReady none = false
    ∧ (∀ p : Pod, observationReady (some p) = true ↔
        p.Spec.NodeName ≠ [] ∧ ∀ s ∈ p.Status.ContainerStatuses, s.Ready = true) := by
  refine ⟨fun p e => waitLoop_eq_some_iff polled p e,
    fun o later h => waitLoop_cons_not_ready o later h, rfl, ?_⟩
  intro p
  simp [observationReady]

/-- C14. Create and delete errors are not propagated: for every desired pod
and every sequence of observations, what `reconcilePod` returns is the same
for any two cluster clients, whether their calls succeed or fail, and the
error it returns is nil. The error of the call, if any, is only logged. -/
theorem reconcilePod_errors_not_propagated (L : LabelNames) (clientset clientset' : Clientset)
    (pod : Pod) (first : Option Pod) (polled : List (Option Pod)) :
    (reconcilePod L clientset pod first polled).returned
        = (reconcilePod L clientset' pod first polled).returned
    ∧ (∀ (p : Pod) (e : Option GoString),
        (reconcilePod L clientset pod first polled).returned = some (p, e) → e = none)
    ∧ (first = none →
        (reconcilePod L clientset pod first polled).logged = (clientset.Create pod).toList)
    ∧ (∀ existingPod existingRevision, first = some existingPod →
        podRevision L existingPod = some existingRevision →
        existingRevision ≠ mapIndex pod.Labels L.RevisionLabel →
        (reconcilePod L clientset pod first polled).logged
          = (clientset.Delete pod.Name).toList) := by
  refine ⟨rfl, ?_, ?_, ?_⟩
  · intro p e h
    exact ((waitLoop_eq_some_iff polled p e).mp h).1
  · intro h
    simp [reconcilePod, reconcileFirstPhase, h]
  · intro existingPod r h hr hne
    unfold podRevision at hr
    simp [reconcilePod, reconcileFirstPhase, h, hr, Ne.symm hne]

/-- C17, evaluation at the failing input. The desired pod has revision 2; the
watch client answers the pod of revision 1, scheduled and ready, both before
the wait loop and at its first poll. `reconcilePod` calls delete and then
returns that pod of revision 1 with a nil error. -/
theorem reconcilePod_returns_stale_pod :
    (reconcilePod sampleLabelNames sampleClientset sampleDesiredPod
        (some sampleStalePod) [some sampleStalePod]).ops
      = [ClusterOp.delete (utf8 "web-abcdef12")]
    ∧ (reconcilePod sampleLabelNames sampleClientset sampleDesiredPod
        (some sampleStalePod) [some sampleStalePod]).returned
      = some (sampleStalePod, none)
    ∧ podRevision sampleLabelNames sampleStalePod = some (utf8 "1")
    ∧ podRevision sampleLabelNames sampleDesiredPod = some (utf8 "2") := by
  decide

end NetesAgent
